import Mathlib

/-!
Verification development for the HTTPProxy-to-DAG translation core of the
Contour ingress controller (file `internal/dag/httpproxy_processor.go`).

The Go source is shallowly embedded: each Go function becomes a Lean
definition with the same branch structure; Go maps keyed by a coordinate
become association lists; Go's unordered map iteration is fixed to
first-occurrence order (all properties proved here are order-insensitive
memberships, or are proved for an arbitrary snapshot list); a Go runtime
panic or exhausted recursion fuel is `Option.none`.  Helper functions of
the repository that live outside the provided source file (builder lookups,
status writer, policy extractors, condition validators) are modelled from
the specification and carry a doc comment saying so.
-/

namespace Contour

/-- Embedding of `k8s.io/apimachinery` `types.NamespacedName`. -/
structure NamespacedName where
  ns : String
  name : String
deriving DecidableEq, Repr

/-- Renders a namespaced name the way the Go source formats it with
`fmt.Sprintf("%s/%s", ns, name)`. -/
def fmtNN (n : NamespacedName) : String := n.ns ++ "/" ++ n.name

/-- Embedding of `projcontour.HeaderMatchCondition`. -/
structure HeaderMatchCondition where
  name : String
  present : Bool
  contains : String
  notContains : String
  exact : String
  notExact : String
deriving DecidableEq, Repr

/-- Embedding of `projcontour.MatchCondition`: a path-prefix string
(source field `Prefix`, here `pfx`) and an optional header predicate. -/
structure MatchCondition where
  pfx : String
  header : Option HeaderMatchCondition
deriving DecidableEq, Repr

/-- Embedding of `projcontour.Include`. -/
structure Include where
  name : String
  ns : String
  conditions : List MatchCondition
deriving DecidableEq, Repr

/-- Embedding of `projcontour.UpstreamValidation`. -/
structure UpstreamValidation where
  caCertificate : String
  subjectName : String
deriving DecidableEq, Repr

/-- Embedding of `projcontour.HeadersPolicy` (user-facing spec object):
headers to set and to remove. -/
structure HeadersPolicySpec where
  set : List (String × String)
  remove : List String
deriving DecidableEq, Repr

/-- Policy stanzas whose extraction details are outside the translation
core; the processor threads them through unchanged, so they are embedded
as opaque-to-the-claims records. -/
structure TimeoutPolicySpec where
  response : String
  idle : String
deriving DecidableEq, Repr

/-- Embedding of `projcontour.RetryPolicy` (carried through verbatim). -/
structure RetryPolicySpec where
  count : Int
  perTryTimeout : String
deriving DecidableEq, Repr

/-- Embedding of `projcontour.LoadBalancerPolicy` (carried through verbatim). -/
structure LoadBalancerPolicySpec where
  strategy : String
deriving DecidableEq, Repr

/-- Embedding of `projcontour.HTTPHealthCheckPolicy` (carried through verbatim). -/
structure HTTPHealthCheckPolicySpec where
  path : String
deriving DecidableEq, Repr

/-- Embedding of `projcontour.TCPHealthCheckPolicy` (carried through verbatim). -/
structure TCPHealthCheckPolicySpec where
  intervalSeconds : Int
deriving DecidableEq, Repr

/-- Embedding of `projcontour.Service`, a service reference on a route or
TCP proxy; named `ServiceRef` because the DAG upstream keeps the source
name `Service`. -/
structure ServiceRef where
  name : String
  port : Int
  protocol : Option String
  weight : Int
  mirror : Bool
  requestHeadersPolicy : Option HeadersPolicySpec
  responseHeadersPolicy : Option HeadersPolicySpec
  upstreamValidation : Option UpstreamValidation
deriving DecidableEq, Repr

/-- Embedding of `projcontour.ReplacePrefix` (one prefix-replacement rule). -/
structure ReplacePfx where
  pfx : String
  replacement : String
deriving DecidableEq, Repr

/-- Embedding of `projcontour.Route` (the user-facing route spec); named
`RouteSpec` because the DAG node keeps the source name `Route`.  The field
`prefixReplacements` is the result of the accessor `GetPrefixReplacements()`. -/
structure RouteSpec where
  conditions : List MatchCondition
  services : List ServiceRef
  enableWebsockets : Bool
  permitInsecure : Bool
  timeoutPolicy : Option TimeoutPolicySpec
  retryPolicy : Option RetryPolicySpec
  healthCheckPolicy : Option HTTPHealthCheckPolicySpec
  loadBalancerPolicy : Option LoadBalancerPolicySpec
  requestHeadersPolicy : Option HeadersPolicySpec
  responseHeadersPolicy : Option HeadersPolicySpec
  prefixReplacements : List ReplacePfx
deriving DecidableEq, Repr

/-- Embedding of `projcontour.TCPProxyInclude`. -/
structure TCPProxyInclude where
  name : String
  ns : String
deriving DecidableEq, Repr

/-- Embedding of `projcontour.TCPProxy` (the spec stanza); the singular
source field `Include` is `includeRef` here (`include` is reserved). -/
structure TCPProxySpec where
  services : List ServiceRef
  includeRef : Option TCPProxyInclude
  includesDeprecated : Option TCPProxyInclude
  loadBalancerPolicy : Option LoadBalancerPolicySpec
  healthCheckPolicy : Option TCPHealthCheckPolicySpec
deriving DecidableEq, Repr

/-- Embedding of `projcontour.DownstreamValidation`. -/
structure DownstreamValidationSpec where
  caCertificate : String
deriving DecidableEq, Repr

/-- Embedding of `projcontour.TLS`. -/
structure TLSSpec where
  secretName : String
  passthrough : Bool
  minimumProtocolVersion : String
  enableFallbackCertificate : Bool
  clientValidation : Option DownstreamValidationSpec
deriving DecidableEq, Repr

/-- Embedding of `projcontour.VirtualHost`. -/
structure VirtualHostSpec where
  fqdn : String
  tls : Option TLSSpec
deriving DecidableEq, Repr

/-- Embedding of `projcontour.HTTPProxy`: object metadata plus the spec
fields the processor reads. -/
structure HTTPProxy where
  ns : String
  name : String
  virtualHost : Option VirtualHostSpec
  routes : List RouteSpec
  includes : List Include
  tcpproxy : Option TCPProxySpec
deriving DecidableEq, Repr

/-- The namespaced name of a document (`k8s.NamespacedNameOf`). -/
def nnOf (p : HTTPProxy) : NamespacedName := ⟨p.ns, p.name⟩

/-! ## String helpers

Core `String` iterator functions do not reduce in the kernel, so the Go
string operations used by the source are re-implemented over `Char` lists. -/

/-- Go `strings.TrimRight(s, "/")`: remove every trailing slash. -/
def trimRightSlashes (s : String) : String :=
  String.mk ((s.toList.reverse.dropWhile (fun c => c == '/')).reverse)

/-- Go `strings.Join(parts, sep)`. -/
def joinWith (sep : String) : List String → String
  | [] => ""
  | [x] => x
  | x :: y :: rest => x ++ sep ++ joinWith sep (y :: rest)

/-- Go `strings.Contains(s, c)` for the single-character needles the
source uses (`"*"`). -/
def containsChar (s : String) (c : Char) : Bool := s.toList.contains c

/-- Byte-wise lexicographic comparison of strings as Go `sort.Strings`
orders them (equivalently, code-point order on the ASCII names involved). -/
def charListLe : List Char → List Char → Bool
  | [], _ => true
  | _ :: _, [] => false
  | a :: as, b :: bs =>
    if a.val < b.val then true
    else if b.val < a.val then false
    else charListLe as bs

/-- String order used by the embedded `sort.Strings`. -/
def strLe (a b : String) : Bool := charListLe a.toList b.toList

/-- Insert a string into a sorted list (stable insertion sort step). -/
def insertSorted (x : String) : List String → List String
  | [] => [x]
  | y :: ys => if strLe x y then x :: y :: ys else y :: insertSorted x ys

/-- Embedding of Go `sort.Strings` as an insertion sort producing the same
sorted sequence. -/
def sortStrings (l : List String) : List String := l.foldr insertSorted []

/-- Decides whether a list of strings is sorted under `strLe`. -/
def isSortedLe : List String → Bool
  | [] => true
  | [_] => true
  | a :: b :: rest => strLe a b && isSortedLe (b :: rest)

/-- Embedding of `isBlank` (source): true when the string trims to empty,
i.e. contains nothing but whitespace. -/
def isBlank (s : String) : Bool := s.toList.all Char.isWhitespace

/-- Modelled from the spec: `k8s.NamespacedNameFrom(s, defaultNamespace)`
(helper outside the provided source) parses an optional `namespace/` prefix
off a secret name, defaulting the namespace to the consuming document's. -/
def namespacedNameFrom (s : String) (defaultNs : String) : NamespacedName :=
  match s.toList.splitOn '/' with
  | [nsPart, namePart] => ⟨String.mk nsPart, String.mk namePart⟩
  | _ => ⟨defaultNs, s⟩

/-! ## DAG (graph model) types -/

/-- Embedding of the DAG path-condition hierarchy: the source has
`*PrefixMatchCondition` and `*ExactMatchCondition` implementations. -/
inductive PathMatchCondition where
  | prefixCond (pfx : String)
  | exactCond (path : String)
deriving DecidableEq, Repr

/-- Embedding of `dag.HeadersPolicy`: the processed header-mutation policy
with the `Host` rewrite pulled out. -/
structure HeadersPolicy where
  hostRewrite : String
  set : List (String × String)
  remove : List String
deriving DecidableEq, Repr

/-- Embedding of `dag.PeerValidationContext`. -/
structure PeerValidationContext where
  caCertificate : NamespacedName
  subjectName : String
deriving DecidableEq, Repr

/-- Embedding of `dag.Service`, the resolved upstream service. -/
structure Service where
  ns : String
  name : String
  port : Int
  protocol : String
  externalName : String
deriving DecidableEq, Repr

/-- Embedding of `dag.Cluster`. -/
structure Cluster where
  upstream : Service
  loadBalancerPolicy : Option LoadBalancerPolicySpec
  weight : Int
  httpHealthCheckPolicy : Option HTTPHealthCheckPolicySpec
  tcpHealthCheckPolicy : Option TCPHealthCheckPolicySpec
  upstreamValidation : Option PeerValidationContext
  requestHeadersPolicy : Option HeadersPolicy
  responseHeadersPolicy : Option HeadersPolicy
  protocol : String
  sni : String
deriving DecidableEq, Repr

/-- Embedding of `dag.MirrorPolicy`. -/
structure MirrorPolicy where
  cluster : Cluster
deriving DecidableEq, Repr

/-- Embedding of `dag.Route`. -/
structure Route where
  pathMatchCondition : PathMatchCondition
  headerMatchConditions : List HeaderMatchCondition
  websocket : Bool
  httpsUpgrade : Bool
  timeoutPolicy : Option TimeoutPolicySpec
  retryPolicy : Option RetryPolicySpec
  requestHeadersPolicy : Option HeadersPolicy
  responseHeadersPolicy : Option HeadersPolicy
  prefixRewrite : String
  clusters : List Cluster
  mirrorPolicy : Option MirrorPolicy
deriving DecidableEq, Repr

/-- Embedding of `dag.TCPProxy`. -/
structure TCPProxy where
  clusters : List Cluster
deriving DecidableEq, Repr

/-- Embedding of `dag.SecureVirtualHost` (the fields the processor writes). -/
structure SecureVirtualHost where
  secret : Option NamespacedName
  minTLSVersion : String
  fallbackCertificate : Option NamespacedName
  downstreamValidation : Option PeerValidationContext
  tcpproxy : Option TCPProxy
  routes : List Route
deriving DecidableEq, Repr

/-- A fresh secure virtual host as allocated by the builder on first lookup. -/
def emptySVHost : SecureVirtualHost := ⟨none, "", none, none, none, []⟩

/-- Embedding of `Route.HasPathPrefix()` (defined in the repository's
`dag.go`, modelled from the spec): true when the path condition is a
prefix condition. -/
def Route.hasPathPfx (r : Route) : Bool :=
  match r.pathMatchCondition with
  | .prefixCond _ => true
  | .exactCond _ => false

/-! ## Snapshot source and builder-state model -/

/-- Embedding of a TLS secret: coordinate plus data keys
(`v1.Secret.Data`). -/
structure Secret where
  nn : NamespacedName
  data : List (String × String)
deriving DecidableEq, Repr

/-- The `ca.crt` data key (source constant `CACertificateKey`). -/
def CACertificateKey : String := "ca.crt"

/-- Looks up a data key of a secret, empty when absent. -/
def secretData (s : Secret) (key : String) : String :=
  match s.data.find? (fun kv => decide (kv.fst = key)) with
  | some kv => kv.snd
  | none => ""

/-- Embedding of `validCA` (source): error when the `ca.crt` key is empty. -/
def validCA (s : Secret) : Except String Unit :=
  if (secretData s CACertificateKey).length = 0 then
    .error ("empty \"" ++ CACertificateKey ++ "\" key")
  else .ok ()

/-- Modelled from the spec: `validSecret` (outside the provided source)
accepts secrets carrying both a TLS certificate and key. -/
def validSecret (s : Secret) : Except String Unit :=
  if (secretData s "tls.crt").length = 0 || (secretData s "tls.key").length = 0 then
    .error "invalid TLS certificate"
  else .ok ()

/-- The read-only resource snapshot (`builder.Source`): documents, the
upstream-service table, secrets, certificate delegations and the permitted
root namespaces. -/
structure Source where
  httpproxies : List HTTPProxy
  services : List Service
  secrets : List Secret
  delegations : List (NamespacedName × String)
  rootNamespaces : List String
deriving Repr

/-- Processor configuration (the exported fields of `HTTPProxyProcessor`). -/
structure Config where
  disablePermitInsecure : Bool
  fallbackCertificate : Option NamespacedName
deriving Repr

/-- Snapshot lookup of an HTTPProxy by coordinate (Go map indexing of
`Source.httpproxies`). -/
def lookupProxy (src : Source) (n : NamespacedName) : Option HTTPProxy :=
  src.httpproxies.find? (fun p => decide (nnOf p = n))

/-- Modelled from the spec: `builder.lookupService((ns,name), port)`
(outside the provided source) resolves an upstream service from the
snapshot or fails with the unresolved-reference error. -/
def lookupService (src : Source) (m : NamespacedName) (port : Int) : Except String Service :=
  match src.services.find? (fun s => decide (s.ns = m.ns ∧ s.name = m.name ∧ s.port = port)) with
  | some s => .ok s
  | none => .error ("service \"" ++ fmtNN m ++ ":" ++ toString port ++ "\" not found")

/-- Modelled from the spec: `Source.LookupSecret(name, validator)` (outside
the provided source) finds the secret and applies the capability validator. -/
def lookupSecret (src : Source) (n : NamespacedName)
    (validator : Secret → Except String Unit) : Except String Secret :=
  match src.secrets.find? (fun s => decide (s.nn = n)) with
  | none => .error "Secret not found"
  | some s =>
    match validator s with
    | .error e => .error e
    | .ok _ => .ok s

/-- Modelled from the spec: `Source.DelegationPermitted(secret, ns)`
(outside the provided source); same-namespace use is always permitted,
cross-namespace use requires a recorded delegation. -/
def delegationPermitted (src : Source) (secret : NamespacedName) (consumerNs : String) : Bool :=
  decide (secret.ns = consumerNs) ||
    src.delegations.any (fun d => decide (d.fst = secret ∧ d.snd = consumerNs))

/-- Modelled from the spec: `annotation.MinTLSVersion` (outside the
provided source); the user value passes through, defaulting when blank. -/
def minTLSVer (v : String) : String := if v = "" then "1.1" else v

/-! ## Per-document status -/

/-- The terminal status a run attaches to one document. -/
inductive Status where
  | valid
  | invalid (msg : String)
  | orphaned (description : String)
deriving DecidableEq, Repr

/-- The orphan description written by `Run`. -/
def orphanDescription : String :=
  "this HTTPProxy is not part of a delegation chain from a root HTTPProxy"

/-- Modelled from the spec: the status writer records the first committed
status for each object and ignores later commits for the same object
(commit-or-discard semantics of `ObjectStatusWriter`). -/
def commitStatus (sts : List (NamespacedName × Status)) (n : NamespacedName)
    (s : Status) : List (NamespacedName × Status) :=
  if sts.any (fun e => decide (e.fst = n)) then sts else sts ++ [(n, s)]

/-- Looks up a committed status. -/
def statusOf (sts : List (NamespacedName × Status)) (n : NamespacedName) : Option Status :=
  (sts.find? (fun e => decide (e.fst = n))).map (·.snd)

/-- The mutable state a run threads through the builder: the orphan set,
committed statuses, and the insecure/secure virtual-host tables. -/
structure RunState where
  orphaned : List NamespacedName
  statuses : List (NamespacedName × Status)
  vhosts : List (String × List Route)
  svhosts : List (String × SecureVirtualHost)
deriving Repr

/-- Embedding of `setOrphaned`: record a coordinate in the orphan set
(Go map-of-bool insertion). -/
def setOrphaned (orphaned : List NamespacedName) (n : NamespacedName) : List NamespacedName :=
  if orphaned.contains n then orphaned else orphaned ++ [n]

/-- Embedding of `delete(p.orphaned, n)`. -/
def deleteOrphaned (orphaned : List NamespacedName) (n : NamespacedName) : List NamespacedName :=
  orphaned.filter (fun m => decide (m ≠ n))

/-- Commit an invalid status for an object inside a run state. -/
def stInvalid (st : RunState) (n : NamespacedName) (msg : String) : RunState :=
  { st with statuses := commitStatus st.statuses n (.invalid msg) }

/-- Update (allocating on first reference) the secure virtual host of an
FQDN, as `builder.lookupSecureVirtualHost` plus a field write does. -/
def updateSVHost (svs : List (String × SecureVirtualHost)) (host : String)
    (f : SecureVirtualHost → SecureVirtualHost) : List (String × SecureVirtualHost) :=
  if svs.any (fun e => decide (e.fst = host)) then
    svs.map (fun e => if e.fst = host then (e.fst, f e.snd) else e)
  else svs ++ [(host, f emptySVHost)]

/-- Append routes to the insecure virtual host of an FQDN
(`builder.lookupVirtualHost` plus `addRoutes`). -/
def addVhostRoutes (vhs : List (String × List Route)) (host : String)
    (routes : List Route) : List (String × List Route) :=
  if vhs.any (fun e => decide (e.fst = host)) then
    vhs.map (fun e => if e.fst = host then (e.fst, e.snd ++ routes) else e)
  else vhs ++ [(host, routes)]

/-! ## Condition validators and mergers (modelled from the spec)

These helpers live outside the provided source file. -/

/-- Modelled from the spec: `pathMatchConditionsValid` (outside the
provided source) requires every non-empty path prefix to start with `/`
and at most one prefix per condition block. -/
def pathMatchConditionsValid (conds : List MatchCondition) : Except String Unit :=
  if conds.any (fun c => decide (c.pfx ≠ "") && !(c.pfx.toList.take 1 == ['/'])) then
    .error "prefix conditions must start with /"
  else if (conds.filter (fun c => decide (c.pfx ≠ ""))).length > 1 then
    .error "more than one prefix is not allowed in a condition block"
  else .ok ()

/-- Lower-cases a header name for the case-insensitive normalization the
spec prescribes. -/
def lowerName (s : String) : String := String.mk (s.toList.map Char.toLower)

/-- Modelled from the spec: `headerMatchConditionsValid` (outside the
provided source) rejects two exact-match predicates on the same
(case-insensitively normalized) header with contradictory values. -/
def headerMatchConditionsValid (conds : List MatchCondition) : Except String Unit :=
  let headers := conds.filterMap (·.header)
  if headers.any (fun a => headers.any (fun b =>
      decide (lowerName a.name = lowerName b.name ∧ a.exact ≠ "" ∧ b.exact ≠ "" ∧
        a.exact ≠ b.exact))) then
    .error "cannot specify duplicate header 'exact match' conditions in the same route"
  else .ok ()

/-- Modelled from the spec: `headersPolicy` (outside the provided source)
turns the user stanza into a `dag.HeadersPolicy`; a `Host` entry becomes
the host rewrite and is legal only when `allowHostRewrite` is set. -/
def headersPolicy (policy : Option HeadersPolicySpec) (allowHostRewrite : Bool) :
    Except String (Option HeadersPolicy) :=
  match policy with
  | none => .ok none
  | some hp =>
    let host :=
      match hp.set.find? (fun kv => decide (kv.fst = "Host")) with
      | some kv => kv.snd
      | none => ""
    if host ≠ "" && !allowHostRewrite then
      .error "rewriting \"Host\" header is not supported on response headers"
    else
      .ok (some ⟨host, hp.set.filter (fun kv => decide (kv.fst ≠ "Host")), hp.remove⟩)

/-- Modelled from the spec: `mergePathMatchConditions` (outside the
provided source) concatenates the prefix segments left to right and
defaults to the prefix `/` when nothing was supplied. -/
def mergePathMatchConditions (conds : List MatchCondition) : PathMatchCondition :=
  let joined := (conds.map (·.pfx)).foldl (· ++ ·) ""
  .prefixCond (if joined = "" then "/" else joined)

/-- Modelled from the spec: `mergeHeaderMatchConditions` (outside the
provided source) unions the header predicates along the path, normalizing
names case-insensitively. -/
def mergeHeaderMatchConditions (conds : List MatchCondition) : List HeaderMatchCondition :=
  (conds.filterMap (·.header)).map (fun h => { h with name := lowerName h.name })

/-- Modelled from the spec: `prefixReplacementsAreValid` (outside the
provided source) rejects duplicate replacement prefixes. -/
def prefixReplacementsAreValid (reps : List ReplacePfx) : Except String Unit :=
  if reps.any (fun a => (reps.filter (fun b => decide (b.pfx = a.pfx))).length > 1) then
    .error "duplicate replacement prefix"
  else .ok ()

/-- Modelled from the spec: `timeoutPolicy` extractor (outside the
provided source), carried through verbatim. -/
def timeoutPolicy (tp : Option TimeoutPolicySpec) : Option TimeoutPolicySpec := tp

/-- Modelled from the spec: `retryPolicy` extractor (outside the provided
source), carried through verbatim. -/
def retryPolicy (rp : Option RetryPolicySpec) : Option RetryPolicySpec := rp

/-- Modelled from the spec: `loadBalancerPolicy` extractor (outside the
provided source), carried through verbatim. -/
def loadBalancerPolicy (lb : Option LoadBalancerPolicySpec) : Option LoadBalancerPolicySpec := lb

/-- Modelled from the spec: `httpHealthCheckPolicy` extractor (outside the
provided source), carried through verbatim. -/
def httpHealthCheckPolicy (hc : Option HTTPHealthCheckPolicySpec) :
    Option HTTPHealthCheckPolicySpec := hc

/-- Modelled from the spec: `tcpHealthCheckPolicy` extractor (outside the
provided source), carried through verbatim. -/
def tcpHealthCheckPolicy (hc : Option TCPHealthCheckPolicySpec) :
    Option TCPHealthCheckPolicySpec := hc

/-! ## Pure functions embedded directly from the source file -/

/-- Embedding of `rootAllowed`: the namespace is permitted when the
configured list is empty or contains it. -/
def rootAllowed (src : Source) (ns : String) : Bool :=
  if src.rootNamespaces.length = 0 then true
  else src.rootNamespaces.any (fun n => decide (n = ns))

/-- Embedding of `routeEnforceTLS`. -/
def routeEnforceTLS (enforceTLS permitInsecure : Bool) : Bool :=
  enforceTLS && !permitInsecure

/-- Embedding of `getProtocol`: an explicit override must be one of
`h2c`, `h2`, `tls`; otherwise the upstream's protocol is used. -/
def getProtocol (service : ServiceRef) (s : Service) : Except String String :=
  match service.protocol with
  | some protocol =>
    if protocol = "h2c" || protocol = "h2" || protocol = "tls" then .ok protocol
    else .error ("unsupported protocol: " ++ protocol)
  | none => .ok s.protocol

/-- Embedding of `determineSNI`: service-level host rewrite first, then
route-level, then the upstream's external name. -/
def determineSNI (routeRequestHeaders : Option HeadersPolicy)
    (clusterRequestHeaders : Option HeadersPolicy) (service : Service) : String :=
  match clusterRequestHeaders with
  | some c =>
    if c.hostRewrite ≠ "" then c.hostRewrite
    else
      match routeRequestHeaders with
      | some r => if r.hostRewrite ≠ "" then r.hostRewrite else service.externalName
      | none => service.externalName
  | none =>
    match routeRequestHeaders with
    | some r => if r.hostRewrite ≠ "" then r.hostRewrite else service.externalName
    | none => service.externalName

/-- A condition of one include clashes with a condition of another when
the prefixes are equal and the header predicates are deep-equal
(the comparison inside `includeMatchConditionsIdentical`). -/
def includesClash (a b : Include) : Bool :=
  a.conditions.any (fun cA => b.conditions.any (fun cB =>
    decide (cA.pfx = cB.pfx ∧ cA.header = cB.header)))

/-- Embedding of `includeMatchConditionsIdentical`: each include is checked
only against its immediate predecessor (`i` against `j = i-1`). -/
def includeMatchConditionsIdentical : List Include → Bool
  | [] => false
  | [_] => false
  | a :: b :: rest => includesClash b a || includeMatchConditionsIdentical (b :: rest)

/-- The delegation-cycle chain string both walks print: the ancestor path
followed by the re-entered node, joined by `" -> "`. -/
def delegationChain (visited : List HTTPProxy) (reentered : HTTPProxy) : String :=
  joinWith " -> " ((visited.map (fun v => fmtNN (nnOf v))) ++ [fmtNN (nnOf reentered)])

/-! ## Prefix expansion (`expandPrefixMatches`)

The Go function first walks the routes, appending the ones without a
prefix condition to the output and grouping the rest by slash-trimmed
prefix; the append is not followed by `continue`, so the subsequent
unchecked type assertion panics on any non-prefix route (`Option.none`
below).  The second pass mutates the single member of a one-route group in
place and appends a companion route for the alternate slash form. -/

/-- The grouping key: the prefix itself for `/`, else the prefix with
trailing slashes trimmed. -/
def pfxGroupKey (routingPfx : String) : String :=
  if routingPfx = "/" then routingPfx else trimRightSlashes routingPfx

/-- Append a route to its group in the grouping table (Go map append). -/
def addToGroup (groups : List (String × List Route)) (key : String) (r : Route) :
    List (String × List Route) :=
  if groups.any (fun e => decide (e.fst = key)) then
    groups.map (fun e => if e.fst = key then (e.fst, e.snd ++ [r]) else e)
  else groups ++ [(key, [r])]

/-- First pass of `expandPrefixMatches`: group the routes by slash-trimmed
prefix; a route whose path condition is not a prefix condition makes the
unchecked type assertion panic (`none`). -/
def gatherGroupsAux : List Route → List (String × List Route) →
    Option (List (String × List Route))
  | [], acc => some acc
  | r :: rest, acc =>
    match r.pathMatchCondition with
    | .exactCond _ => none
    | .prefixCond q => gatherGroupsAux rest (addToGroup acc (pfxGroupKey q) r)

/-- Second pass of `expandPrefixMatches` for one group: a single route
with a non-empty rewrite and a non-`/` prefix becomes the pair of
slash-variant routes; groups of two (or, defensively, more) pass through. -/
def groupContribution (key : String) (g : List Route) : Option (List Route) :=
  match g with
  | [r] =>
    if r.prefixRewrite = "" then some [r]
    else
      match r.pathMatchCondition with
      | .exactCond _ => none
      | .prefixCond routingPfx =>
        if routingPfx = "/" then some [r]
        else
          let trimmed := trimRightSlashes r.prefixRewrite
          some [{ r with pathMatchCondition := .prefixCond key,
                         prefixRewrite := if trimmed = "" then "/" else trimmed },
                { r with pathMatchCondition := .prefixCond (key ++ "/"),
                         prefixRewrite := trimmed ++ "/" }]
  | g => some g

/-- Concatenate the group contributions of the second pass. -/
def flattenContribs : List (String × List Route) → Option (List Route)
  | [] => some []
  | (k, g) :: rest =>
    match groupContribution k g, flattenContribs rest with
    | some c, some cs => some (c ++ cs)
    | _, _ => none

/-- Embedding of `expandPrefixMatches`; `none` is the Go panic. -/
def expandPrefixMatches (routes : List Route) : Option (List Route) :=
  match gatherGroupsAux routes [] with
  | none => none
  | some groups => flattenContribs groups

/-! ## FQDN-conflict partition (`validHTTPProxies`) -/

/-- All snapshot documents that are roots carrying the given FQDN. -/
def rootsWithFqdn (l : List HTTPProxy) (f : String) : List HTTPProxy :=
  l.filter (fun p =>
    match p.virtualHost with
    | some v => decide (v.fqdn = f)
    | none => false)

/-- The distinct FQDNs claimed by roots of the snapshot (the key set of
the Go grouping map; its iteration order is unspecified in Go and fixed
here, all claims being order-insensitive). -/
def rootFqdns (l : List HTTPProxy) : List String :=
  (l.filterMap (fun p => p.virtualHost.map (·.fqdn))).dedup

/-- The conflict message of `validHTTPProxies`, with the contributing
documents' namespaced names sorted as `sort.Strings` does. -/
def fqdnConflictMsg (fqdn : String) (proxies : List HTTPProxy) : String :=
  "fqdn \"" ++ fqdn ++ "\" is used in multiple HTTPProxies: " ++
    joinWith ", " (sortStrings (proxies.map (fun q => q.ns ++ "/" ++ q.name)))

/-- Second loop of `validHTTPProxies`: a one-member FQDN group joins the
valid list, a larger group gets every member marked invalid. -/
def fqdnPass (l : List HTTPProxy) : List String →
    List HTTPProxy × List (NamespacedName × Status)
  | [] => ([], [])
  | f :: fs =>
    let rest := fqdnPass l fs
    match rootsWithFqdn l f with
    | [p] => (p :: rest.fst, rest.snd)
    | g => (rest.fst, g.map (fun q => (nnOf q, Status.invalid (fqdnConflictMsg f g))) ++ rest.snd)

/-- Embedding of `validHTTPProxies`: the leaves pass through (in snapshot
order, before every root), roots are grouped by FQDN, and conflicting
groups are excluded with every member marked invalid.  Returns the valid
list together with the committed conflict statuses. -/
def validHTTPProxies (src : Source) : List HTTPProxy × List (NamespacedName × Status) :=
  let leaves := src.httpproxies.filter (fun p => p.virtualHost.isNone)
  let r := fqdnPass src.httpproxies (rootFqdns src.httpproxies)
  (leaves ++ r.fst, r.snd)

/-! ## Upstream and downstream validation lookups (source lines 566-601) -/

/-- Embedding of `lookupUpstreamValidation`. -/
def lookupUpstreamValidation (src : Source) (uv : Option UpstreamValidation) (ns : String) :
    Except String (Option PeerValidationContext) :=
  match uv with
  | none => .ok none
  | some uv =>
    let secretName : NamespacedName := ⟨ns, uv.caCertificate⟩
    match lookupSecret src secretName validCA with
    | .error e => .error ("invalid CA Secret \"" ++ fmtNN secretName ++ "\": " ++ e)
    | .ok _ =>
      if uv.subjectName = "" then .error "missing subject alternative name"
      else .ok (some ⟨secretName, uv.subjectName⟩)

/-- Embedding of `lookupDownstreamValidation`. -/
def lookupDownstreamValidation (src : Source) (vc : DownstreamValidationSpec) (ns : String) :
    Except String PeerValidationContext :=
  let secretName : NamespacedName := ⟨ns, vc.caCertificate⟩
  match lookupSecret src secretName validCA with
  | .error e => .error ("invalid CA Secret \"" ++ fmtNN secretName ++ "\": " ++ e)
  | .ok _ => .ok ⟨secretName, ""⟩

/-! ## Route construction (`computeRoutes`, source lines 268-413) -/

/-- The `&Route{...}` literal built for each route spec
(source lines 299-308). -/
def buildRoute (cfg : Config) (conds : List MatchCondition) (route : RouteSpec)
    (enforceTLS : Bool) (reqHP respHP : Option HeadersPolicy) : Route :=
  { pathMatchCondition := mergePathMatchConditions conds
    headerMatchConditions := mergeHeaderMatchConditions conds
    websocket := route.enableWebsockets
    httpsUpgrade := routeEnforceTLS enforceTLS (route.permitInsecure && !cfg.disablePermitInsecure)
    timeoutPolicy := timeoutPolicy route.timeoutPolicy
    retryPolicy := retryPolicy route.retryPolicy
    requestHeadersPolicy := reqHP
    responseHeadersPolicy := respHP
    prefixRewrite := ""
    clusters := []
    mirrorPolicy := none }

/-- First replacement loop of the prefix-replacement block: the first rule
whose non-empty prefix equals the routing prefix. -/
def firstMatchingReplacement (routingPfx : String) : List ReplacePfx → String
  | [] => ""
  | rep :: rest =>
    if rep.pfx ≠ "" ∧ routingPfx = rep.pfx then rep.replacement
    else firstMatchingReplacement routingPfx rest

/-- Second replacement loop: the first rule with an empty prefix (the
default replacement). -/
def firstDefaultReplacement : List ReplacePfx → String
  | [] => ""
  | rep :: rest => if rep.pfx.length = 0 then rep.replacement else firstDefaultReplacement rest

/-- Choice of the prefix rewrite (source lines 325-343): an exact match on
the routing prefix first, falling back to the default replacement when
that produced the empty string. -/
def applyPrefixReplacement (r : Route) (reps : List ReplacePfx) : Route :=
  match r.pathMatchCondition with
  | .prefixCond routingPfx =>
    let a := firstMatchingReplacement routingPfx reps
    { r with prefixRewrite := if a = "" then firstDefaultReplacement reps else a }
  | .exactCond _ => r

/-- The prefix-replacement block of the route loop (source lines 310-345),
from the emptiness test through rewrite selection. -/
def routeWithReplacements (r0 : Route) (route : RouteSpec) : Except String Route :=
  if route.prefixReplacements.length > 0 then
    if !(r0.hasPathPfx) then .error "cannot specify prefix replacements without a prefix condition"
    else
      match prefixReplacementsAreValid route.prefixReplacements with
      | .error e => .error e
      | .ok _ => .ok (applyPrefixReplacement r0 route.prefixReplacements)
  else .ok r0

/-- The per-service loop of the route loop (source lines 347-411).  The
`Option Route` result is `none` when the surrounding `computeRoutes` must
return `nil` after committing an invalid status. -/
def goServices (src : Source) (swOwner : NamespacedName) (proxyNs : String)
    (route : RouteSpec) (st : RunState) (r : Route) :
    List ServiceRef → RunState × Option Route
  | [] => (st, some r)
  | service :: rest =>
    if service.port < 1 ∨ service.port > 65535 then
      (stInvalid st swOwner ("service \"" ++ service.name ++ "\": port must be in the range 1-65535"), none)
    else
      match lookupService src ⟨proxyNs, service.name⟩ service.port with
      | .error e => (stInvalid st swOwner ("Spec.Routes unresolved service reference: " ++ e), none)
      | .ok s =>
        match getProtocol service s with
        | .error e => (stInvalid st swOwner e, none)
        | .ok protocol =>
          match (if protocol = "tls" || protocol = "h2" then
                   lookupUpstreamValidation src service.upstreamValidation proxyNs
                 else .ok none) with
          | .error e =>
            (stInvalid st swOwner ("Service [" ++ service.name ++ ":" ++ toString service.port ++
              "] TLS upstream validation policy error: " ++ e), none)
          | .ok uv =>
            match headersPolicy service.requestHeadersPolicy true with
            | .error e => (stInvalid st swOwner e, none)
            | .ok reqHP =>
              match headersPolicy service.responseHeadersPolicy false with
              | .error e => (stInvalid st swOwner e, none)
              | .ok respHP =>
                let c : Cluster := {
                  upstream := s
                  loadBalancerPolicy := loadBalancerPolicy route.loadBalancerPolicy
                  weight := service.weight % 4294967296
                  httpHealthCheckPolicy := httpHealthCheckPolicy route.healthCheckPolicy
                  tcpHealthCheckPolicy := none
                  upstreamValidation := uv
                  requestHeadersPolicy := reqHP
                  responseHeadersPolicy := respHP
                  protocol := protocol
                  sni := determineSNI r.requestHeadersPolicy reqHP s }
                if service.mirror && r.mirrorPolicy.isSome then
                  (stInvalid st swOwner "only one service per route may be nominated as mirror", none)
                else if service.mirror then
                  goServices src swOwner proxyNs route st { r with mirrorPolicy := some ⟨c⟩ } rest
                else
                  goServices src swOwner proxyNs route st { r with clusters := r.clusters ++ [c] } rest

/-- The per-route loop of `computeRoutes` (source lines 268-413); `none`
in the second component means the walk returns `nil` for this document. -/
def goRoutes (src : Source) (cfg : Config) (swOwner : NamespacedName) (proxy : HTTPProxy)
    (conditions : List MatchCondition) (enforceTLS : Bool) :
    List RouteSpec → RunState → List Route → RunState × Option (List Route)
  | [], st, acc => (st, some acc)
  | route :: rest, st, acc =>
    match pathMatchConditionsValid route.conditions with
    | .error e => (stInvalid st swOwner ("route: " ++ e), none)
    | .ok _ =>
      match headerMatchConditionsValid (conditions ++ route.conditions) with
      | .error e => (stInvalid st swOwner e, none)
      | .ok _ =>
        match headersPolicy route.requestHeadersPolicy true with
        | .error e => (stInvalid st swOwner e, none)
        | .ok reqHP =>
          match headersPolicy route.responseHeadersPolicy false with
          | .error e => (stInvalid st swOwner e, none)
          | .ok respHP =>
            if route.services.length < 1 then
              (stInvalid st swOwner "route.services must have at least one entry", none)
            else
              match routeWithReplacements
                  (buildRoute cfg (conditions ++ route.conditions) route enforceTLS reqHP respHP)
                  route with
              | .error e => (stInvalid st swOwner e, none)
              | .ok r1 =>
                match goServices src swOwner proxy.ns route st r1 route.services with
                | (st1, none) => (st1, none)
                | (st1, some r2) =>
                  goRoutes src cfg swOwner proxy conditions enforceTLS rest st1 (acc ++ [r2])

/-- The include loop of `computeRoutes` (source lines 239-266): resolve
each include, reject roots and bad conditions, hand the delegate to the
recursive walk `recur` under the child's status scope, and remove the
delegate from the orphan set.  The second result component is `none` when
the loop aborted and the surrounding `computeRoutes` must return `nil`. -/
def goIncludesWith (src : Source)
    (recur : HTTPProxy → List MatchCondition → RunState → Option (RunState × List Route))
    (swOwner : NamespacedName) (proxy : HTTPProxy) (conditions : List MatchCondition) :
    List Include → RunState → List Route → Option (RunState × Option (List Route))
  | [], st, acc => some (st, some acc)
  | inc :: rest, st, acc =>
    let ns1 := if inc.ns = "" then proxy.ns else inc.ns
    match lookupProxy src ⟨ns1, inc.name⟩ with
    | none => some (stInvalid st swOwner ("include " ++ ns1 ++ "/" ++ inc.name ++ " not found"), none)
    | some delegate =>
      if delegate.virtualHost.isSome then
        some (stInvalid st swOwner "root httpproxy cannot delegate to another root httpproxy", none)
      else
        match pathMatchConditionsValid inc.conditions with
        | .error e => some (stInvalid st swOwner ("include: " ++ e), none)
        | .ok _ =>
          match recur delegate (conditions ++ inc.conditions) st with
          | none => none
          | some (st1, rs) =>
            let st2 := { st1 with orphaned := deleteOrphaned st1.orphaned (nnOf delegate) }
            goIncludesWith src recur swOwner proxy conditions rest st2 (acc ++ rs)

/-- Embedding of `computeRoutes` (source lines 215-419), with recursion
fuel standing in for Go's unbounded stack; exhausted fuel and the prefix
expansion panic are `none`.  Invalid documents return an empty route
list, as the Go `nil` return does. -/
def computeRoutesF (src : Source) (cfg : Config) : Nat → NamespacedName → HTTPProxy →
    List MatchCondition → List HTTPProxy → Bool → RunState → Option (RunState × List Route)
  | 0, _, _, _, _, _, _ => none
  | fuel + 1, swOwner, proxy, conditions, visited, enforceTLS, st =>
    if visited.any (fun v => decide (v.name = proxy.name ∧ v.ns = proxy.ns)) then
      some (stInvalid st swOwner
        ("include creates a delegation cycle: " ++ delegationChain visited proxy), [])
    else
      if includeMatchConditionsIdentical proxy.includes then
        some (stInvalid st swOwner "duplicate conditions defined on an include", [])
      else
        match goIncludesWith src
            (fun d c s =>
              computeRoutesF src cfg fuel (nnOf d) d c (visited ++ [proxy]) enforceTLS s)
            swOwner proxy conditions proxy.includes st [] with
        | none => none
        | some (st1, none) => some (st1, [])
        | some (st1, some rs) =>
          match goRoutes src cfg swOwner proxy conditions enforceTLS proxy.routes st1 rs with
          | (st2, none) => some (st2, [])
          | (st2, some rs2) =>
            match expandPrefixMatches rs2 with
            | none => none
            | some ex =>
              some ({ st2 with statuses := commitStatus st2.statuses swOwner .valid }, ex)

/-! ## TCP proxy walk (`processHTTPProxyTCPProxy`, source lines 425-514) -/

/-- The include the TCP walk follows (source lines 434-439): the singular
field, falling back to the deprecated plural one. -/
def tcpIncludeOf (tp : TCPProxySpec) : Option TCPProxyInclude :=
  match tp.includeRef with
  | some i => some i
  | none => tp.includesDeprecated

/-- The per-service loop of the TCP leaf case (source lines 446-461). -/
def goTCPServices (src : Source) (swOwner : NamespacedName) (httpproxy : HTTPProxy)
    (tcpproxy : TCPProxySpec) (st : RunState) (acc : List Cluster) :
    List ServiceRef → RunState × Option (List Cluster)
  | [] => (st, some acc)
  | service :: rest =>
    match lookupService src ⟨httpproxy.ns, service.name⟩ service.port with
    | .error e => (stInvalid st swOwner ("Spec.TCPProxy unresolved service reference: " ++ e), none)
    | .ok s =>
      let c : Cluster := {
        upstream := s
        loadBalancerPolicy := loadBalancerPolicy tcpproxy.loadBalancerPolicy
        weight := 0
        httpHealthCheckPolicy := none
        tcpHealthCheckPolicy := tcpHealthCheckPolicy tcpproxy.healthCheckPolicy
        upstreamValidation := none
        requestHeadersPolicy := none
        responseHeadersPolicy := none
        protocol := s.protocol
        sni := "" }
      goTCPServices src swOwner httpproxy tcpproxy st (acc ++ [c]) rest

/-- Embedding of `processHTTPProxyTCPProxy`: the boolean result mirrors the
Go return value, fuel exhaustion is `none`. -/
def processHTTPProxyTCPProxy (src : Source) : Nat → NamespacedName → HTTPProxy →
    List HTTPProxy → String → RunState → Option (RunState × Bool)
  | 0, _, _, _, _, _ => none
  | fuel + 1, swOwner, httpproxy, visited, host, st =>
    match httpproxy.tcpproxy with
    | none => some (st, true)
    | some tcpproxy =>
      let visited1 := visited ++ [httpproxy]
      let tcpProxyInclude := tcpIncludeOf tcpproxy
      if tcpproxy.services.length > 0 && tcpProxyInclude.isSome then
        some (stInvalid st swOwner
          "tcpproxy: cannot specify services and include in the same httpproxy", false)
      else if tcpproxy.services.length > 0 then
        match goTCPServices src swOwner httpproxy tcpproxy st [] tcpproxy.services with
        | (st1, none) => some (st1, false)
        | (st1, some clusters) =>
          let svs := updateSVHost st1.svhosts host (fun sv => { sv with tcpproxy := some ⟨clusters⟩ })
          some ({ st1 with svhosts := svs }, true)
      else
        match tcpProxyInclude with
        | none =>
          some (stInvalid st swOwner "tcpproxy: either services or inclusion must be specified", false)
        | some inc =>
          let ns1 := if inc.ns = "" then httpproxy.ns else inc.ns
          match lookupProxy src ⟨ns1, inc.name⟩ with
          | none =>
            some (stInvalid st swOwner
              ("tcpproxy: include " ++ ns1 ++ "/" ++ inc.name ++ " not found"), false)
          | some dest =>
            if dest.virtualHost.isSome then
              some (stInvalid st swOwner
                "root httpproxy cannot delegate to another root httpproxy", false)
            else
              let st1 := { st with orphaned := deleteOrphaned st.orphaned (nnOf dest) }
              if visited1.any (fun hp => decide (dest.name = hp.name ∧ dest.ns = hp.ns)) then
                some (stInvalid st1 swOwner
                  ("tcpproxy include creates a cycle: " ++ delegationChain visited1 dest), false)
              else
                match processHTTPProxyTCPProxy src fuel (nnOf dest) dest visited1 host st1 with
                | none => none
                | some (st2, ok) =>
                  if ok then
                    some ({ st2 with statuses := commitStatus st2.statuses (nnOf dest) .valid }, true)
                  else some (st2, false)

/-! ## Per-root computation (`computeHTTPProxy`, source lines 78-202) and `Run` -/

/-- TLS fallback-certificate block (source lines 147-165); `Except.error`
carries the state after an invalid status was committed. -/
def computeFallbackCertificate (src : Source) (cfg : Config) (proxy : HTTPProxy)
    (tls : TLSSpec) (host : String) (st : RunState) : Except RunState RunState :=
  if tls.enableFallbackCertificate then
    match cfg.fallbackCertificate with
    | none =>
      .error (stInvalid st (nnOf proxy)
        "Spec.Virtualhost.TLS enabled fallback but the fallback Certificate Secret is not configured in Contour configuration file")
    | some fc =>
      match lookupSecret src fc validSecret with
      | .error e =>
        .error (stInvalid st (nnOf proxy)
          ("Spec.Virtualhost.TLS Secret \"" ++ fmtNN fc ++ "\" fallback certificate is invalid: " ++ e))
      | .ok _ =>
        if !(delegationPermitted src fc proxy.ns) then
          .error (stInvalid st (nnOf proxy)
            ("Spec.VirtualHost.TLS fallback Secret \"" ++ fmtNN fc ++ "\" is not configured for certificate delegation"))
        else
          let svs := updateSVHost st.svhosts host (fun sv => { sv with fallbackCertificate := some fc })
          .ok { st with svhosts := svs }
  else .ok st

/-- TLS client-validation block (source lines 168-175). -/
def computeClientValidation (src : Source) (proxy : HTTPProxy) (tls : TLSSpec)
    (host : String) (st : RunState) : Except RunState RunState :=
  match tls.clientValidation with
  | none => .ok st
  | some cv =>
    match lookupDownstreamValidation src cv proxy.ns with
    | .error e =>
      .error (stInvalid st (nnOf proxy) ("Spec.VirtualHost.TLS client validation is invalid: " ++ e))
    | .ok dv =>
      let svs := updateSVHost st.svhosts host (fun sv => { sv with downstreamValidation := some dv })
      .ok { st with svhosts := svs }

/-- TLS stanza handling of `computeHTTPProxy` (source lines 110-180);
returns the updated state and the `tlsEnabled` flag, or the state after an
invalid status was committed. -/
def computeVirtualHostTLS (src : Source) (cfg : Config) (proxy : HTTPProxy) (host : String)
    (tls : Option TLSSpec) (st : RunState) : Except RunState (RunState × Bool) :=
  match tls with
  | none => .ok (st, false)
  | some tls =>
    if !(isBlank tls.secretName) && tls.passthrough then
      .error (stInvalid st (nnOf proxy)
        "Spec.VirtualHost.TLS: both Passthrough and SecretName were specified")
    else if isBlank tls.secretName && !tls.passthrough then
      .error (stInvalid st (nnOf proxy)
        "Spec.VirtualHost.TLS: neither Passthrough nor SecretName were specified")
    else if !tls.passthrough then
      let secretName := namespacedNameFrom tls.secretName proxy.ns
      match lookupSecret src secretName validSecret with
      | .error e =>
        .error (stInvalid st (nnOf proxy)
          ("Spec.VirtualHost.TLS Secret \"" ++ tls.secretName ++ "\" is invalid: " ++ e))
      | .ok _ =>
        if !(delegationPermitted src secretName proxy.ns) then
          .error (stInvalid st (nnOf proxy)
            ("Spec.VirtualHost.TLS Secret \"" ++ tls.secretName ++ "\" certificate delegation not permitted"))
        else
          let svs := updateSVHost st.svhosts host (fun sv =>
            { sv with secret := some secretName, minTLSVersion := minTLSVer tls.minimumProtocolVersion })
          let st1 := { st with svhosts := svs }
          if tls.enableFallbackCertificate && tls.clientValidation.isSome then
            .error (stInvalid st1 (nnOf proxy)
              "Spec.Virtualhost.TLS fallback & client validation are incompatible together")
          else
            match computeFallbackCertificate src cfg proxy tls host st1 with
            | .error st2 => .error st2
            | .ok st2 =>
              match computeClientValidation src proxy tls host st2 with
              | .error st3 => .error st3
              | .ok st3 => .ok (st3, true)
    else
      if tls.clientValidation.isSome then
        .error (stInvalid st (nnOf proxy)
          "Spec.VirtualHost.TLS passthrough cannot be combined with tls.clientValidation")
      else .ok (st, true)

/-- Tail of `computeHTTPProxy` (source lines 192-201): compute the routes,
add them to the insecure virtual host, and to the secure one when TLS is
enabled and no TCP proxy is present. -/
def computeHTTPProxyRoutes (src : Source) (cfg : Config) (fuel : Nat) (st : RunState)
    (proxy : HTTPProxy) (host : String) (tlsEnabled : Bool) : Option RunState :=
  match computeRoutesF src cfg fuel (nnOf proxy) proxy [] [] tlsEnabled st with
  | none => none
  | some (st1, routes) =>
    let st2 := { st1 with vhosts := addVhostRoutes st1.vhosts host routes }
    if tlsEnabled && proxy.tcpproxy.isNone then
      let svs := updateSVHost st2.svhosts host (fun sv => { sv with routes := sv.routes ++ routes })
      some { st2 with svhosts := svs }
    else some st2

/-- Embedding of `computeHTTPProxy`. -/
def computeHTTPProxy (src : Source) (cfg : Config) (fuel : Nat) (st : RunState)
    (proxy : HTTPProxy) : Option RunState :=
  match proxy.virtualHost with
  | none => some { st with orphaned := setOrphaned st.orphaned (nnOf proxy) }
  | some vh =>
    if !(rootAllowed src proxy.ns) then
      some (stInvalid st (nnOf proxy) "root HTTPProxy cannot be defined in this namespace")
    else
      let host := vh.fqdn
      if isBlank host then
        some (stInvalid st (nnOf proxy) "Spec.VirtualHost.Fqdn must be specified")
      else if containsChar host '*' then
        some (stInvalid st (nnOf proxy)
          ("Spec.VirtualHost.Fqdn \"" ++ host ++ "\" cannot use wildcards"))
      else if proxy.routes.length = 0 ∧ proxy.includes.length = 0 ∧ proxy.tcpproxy.isNone then
        some (stInvalid st (nnOf proxy)
          "HTTPProxy.Spec must have at least one Route, Include, or a TCPProxy")
      else
        match computeVirtualHostTLS src cfg proxy host vh.tls st with
        | .error st1 => some st1
        | .ok (st1, tlsEnabled) =>
          if proxy.tcpproxy.isSome then
            if !tlsEnabled then
              some (stInvalid st1 (nnOf proxy)
                "Spec.TCPProxy requires that either Spec.TLS.Passthrough or Spec.TLS.SecretName be set")
            else
              match processHTTPProxyTCPProxy src fuel (nnOf proxy) proxy [] host st1 with
              | none => none
              | some (st2, false) => some st2
              | some (st2, true) => computeHTTPProxyRoutes src cfg fuel st2 proxy host tlsEnabled
          else computeHTTPProxyRoutes src cfg fuel st1 proxy host tlsEnabled

/-- Embedding of `computeHTTPProxies`: process each valid document in
order. -/
def computeHTTPProxiesFold (src : Source) (cfg : Config) (fuel : Nat) :
    List HTTPProxy → RunState → Option RunState
  | [], st => some st
  | p :: rest, st =>
    match computeHTTPProxy src cfg fuel st p with
    | none => none
    | some st1 => computeHTTPProxiesFold src cfg fuel rest st1

/-- The orphan loop at the end of `Run` (source lines 61-69): every member
of the orphan set that still resolves in the snapshot has an orphaned
status committed. -/
def markOrphans (src : Source) : List NamespacedName → List (NamespacedName × Status) →
    List (NamespacedName × Status)
  | [], sts => sts
  | n :: rest, sts =>
    match lookupProxy src n with
    | some _ => markOrphans src rest (commitStatus sts n (.orphaned orphanDescription))
    | none => markOrphans src rest sts

/-- Embedding of `Run`: partition the snapshot, walk every valid document
with fuel bounded by the snapshot size, then mark the surviving orphan set. -/
def runModel (src : Source) (cfg : Config) : Option RunState :=
  let v := validHTTPProxies src
  let st0 : RunState := { orphaned := [], statuses := v.snd, vhosts := [], svhosts := [] }
  match computeHTTPProxiesFold src cfg (src.httpproxies.length + 1) v.fst st0 with
  | none => none
  | some st1 => some { st1 with statuses := markOrphans src st1.orphaned st1.statuses }

/-! ## Reachability over include edges

Used only to state claims about "transitively referenced" documents; the
walk itself never computes this set. -/

/-- The coordinate an HTTP include of a document resolves to
(namespace defaulting to the including document's). -/
def includeTargetNN (q : HTTPProxy) (inc : Include) : NamespacedName :=
  ⟨if inc.ns = "" then q.ns else inc.ns, inc.name⟩

/-- The coordinate a TCP include of a document resolves to. -/
def tcpTargetNN (q : HTTPProxy) (i : TCPProxyInclude) : NamespacedName :=
  ⟨if i.ns = "" then q.ns else i.ns, i.name⟩

/-- Every coordinate any include (HTTP or TCP) of a single document
targets. -/
def docIncludeTargets (q : HTTPProxy) : List NamespacedName :=
  q.includes.map (includeTargetNN q) ++
    (match q.tcpproxy with
     | some tp => ((tcpIncludeOf tp).map (tcpTargetNN q)).toList
     | none => [])

/-- Every coordinate any include of any snapshot document targets. -/
def allIncludeTargets (src : Source) : List NamespacedName :=
  src.httpproxies.flatMap docIncludeTargets

/-- One expansion step of include reachability: a set of coordinates plus
everything the corresponding documents' includes target. -/
def reachStep (src : Source) (s : List NamespacedName) : List NamespacedName :=
  s ++ (s.flatMap (fun n =>
    match lookupProxy src n with
    | some q => docIncludeTargets q
    | none => []))

/-- Coordinates transitively referenced (via includes) from a document,
computed by iterating the expansion step snapshot-size many times. -/
def reachableFrom (src : Source) (q : HTTPProxy) : List NamespacedName :=
  Nat.iterate (reachStep src) src.httpproxies.length (docIncludeTargets q)

/-! ## Concrete instances used by witnesses and counterexamples -/

/-- A route-spec skeleton with every optional field empty. -/
def blankRouteSpec : RouteSpec :=
  { conditions := [], services := [], enableWebsockets := false, permitInsecure := false,
    timeoutPolicy := none, retryPolicy := none, healthCheckPolicy := none,
    loadBalancerPolicy := none, requestHeadersPolicy := none, responseHeadersPolicy := none,
    prefixReplacements := [] }

/-- A service-reference skeleton. -/
def blankServiceRef : ServiceRef :=
  { name := "", port := 80, protocol := none, weight := 0, mirror := false,
    requestHeadersPolicy := none, responseHeadersPolicy := none, upstreamValidation := none }

/-- A DAG route skeleton. -/
def blankRoute : Route :=
  { pathMatchCondition := .prefixCond "/", headerMatchConditions := [], websocket := false,
    httpsUpgrade := false, timeoutPolicy := none, retryPolicy := none,
    requestHeadersPolicy := none, responseHeadersPolicy := none, prefixRewrite := "",
    clusters := [], mirrorPolicy := none }

/-- An empty run state. -/
def st0 : RunState := { orphaned := [], statuses := [], vhosts := [], svhosts := [] }

/-- Default processor configuration for the concrete scenarios. -/
def cfg0 : Config := { disablePermitInsecure := false, fallbackCertificate := none }

/-- A concrete upstream service used by witnesses. -/
def svcW : Service := { ns := "a", name := "svc", port := 80, protocol := "", externalName := "up.example.com" }

/-- The route whose prefix expansion the C4 witness checks: prefix `/foo`,
rewrite `/bar`. -/
def rFooC4 : Route := { blankRoute with pathMatchCondition := .prefixCond "/foo", prefixRewrite := "/bar" }

/-- Two user-supplied slash forms of one prefix (a size-two group). -/
def rPairA : Route := { blankRoute with pathMatchCondition := .prefixCond "/p", prefixRewrite := "/x" }

/-- Second member of the size-two group. -/
def rPairB : Route := { blankRoute with pathMatchCondition := .prefixCond "/p/", prefixRewrite := "/x/" }

/-- A route with an exact-match path condition (not a prefix condition). -/
def rExactC5 : Route := { blankRoute with pathMatchCondition := .exactCond "/exact" }

/-- The leaf document of the cycle scenarios. -/
def pxLeafW : HTTPProxy :=
  { ns := "a", name := "L", virtualHost := none, routes := [], includes := [], tcpproxy := none }

/-- A root whose include list repeats its first include condition at
position two: positions 0 and 2 clash, adjacent pairs do not. -/
def pxDupRoot : HTTPProxy :=
  { ns := "a", name := "R", virtualHost := some ⟨"dup.example.com", none⟩, routes := [],
    includes := [⟨"L", "a", [⟨"/a", none⟩]⟩, ⟨"L", "a", [⟨"/b", none⟩]⟩, ⟨"L", "a", [⟨"/a", none⟩]⟩],
    tcpproxy := none }

/-- Snapshot for the C6 counterexample. -/
def srcDup : Source :=
  { httpproxies := [pxDupRoot, pxLeafW], services := [], secrets := [], delegations := [],
    rootNamespaces := [] }

/-- A root whose two adjacent includes share a condition (detected case). -/
def pxAdjDupRoot : HTTPProxy :=
  { ns := "a", name := "R2", virtualHost := some ⟨"adj.example.com", none⟩, routes := [],
    includes := [⟨"L", "a", [⟨"/a", none⟩]⟩, ⟨"L", "a", [⟨"/a", none⟩]⟩],
    tcpproxy := none }

/-- Snapshot for the C6 witness. -/
def srcAdjDup : Source :=
  { httpproxies := [pxAdjDupRoot, pxLeafW], services := [], secrets := [], delegations := [],
    rootNamespaces := [] }

/-- A document whose TCP proxy includes itself (TCP cycle witness). -/
def pxTCPSelf : HTTPProxy :=
  { ns := "a", name := "T", virtualHost := none, routes := [], includes := [],
    tcpproxy := some { services := [], includeRef := some ⟨"T", "a"⟩, includesDeprecated := none,
                       loadBalancerPolicy := none, healthCheckPolicy := none } }

/-- Snapshot for the TCP-cycle witness. -/
def srcTCPSelf : Source :=
  { httpproxies := [pxTCPSelf], services := [], secrets := [], delegations := [],
    rootNamespaces := [] }

/-- A leaf referenced (only) by a root that fails FQDN validation. -/
def pxLeafC3 : HTTPProxy :=
  { ns := "a", name := "leaf", virtualHost := none, routes := [], includes := [], tcpproxy := none }

/-- A root in the valid set whose wildcard FQDN stops `computeHTTPProxy`
before the include walk, leaving its include target orphaned. -/
def pxBadRootC3 : HTTPProxy :=
  { ns := "a", name := "bad", virtualHost := some ⟨"*bad*", none⟩, routes := [],
    includes := [⟨"leaf", "a", []⟩], tcpproxy := none }

/-- Snapshot for the C3 counterexample. -/
def srcC3 : Source :=
  { httpproxies := [pxBadRootC3, pxLeafC3], services := [], secrets := [], delegations := [],
    rootNamespaces := [] }

/-- An unreferenced leaf in a one-document snapshot (C3 witness). -/
def srcLoneLeaf : Source :=
  { httpproxies := [pxLeafC3], services := [], secrets := [], delegations := [],
    rootNamespaces := [] }

/-- The run state the model produces on the one-leaf snapshot. -/
def stLoneResult : RunState :=
  { orphaned := [nnOf pxLeafC3],
    statuses := [(nnOf pxLeafC3, Status.orphaned orphanDescription)],
    vhosts := [], svhosts := [] }

/-- An upstream service sitting at an out-of-range port in the modelled
service table (nothing in the processor rejects it for TCP proxies). -/
def svcBigPort : Service := { ns := "a", name := "s", port := 99999, protocol := "", externalName := "" }

/-- A TCP proxy stanza whose single service sits at the out-of-range port
99999. -/
def tpBigPort : TCPProxySpec :=
  { services := [{ blankServiceRef with name := "s", port := 99999 }],
    includeRef := none, includesDeprecated := none,
    loadBalancerPolicy := none, healthCheckPolicy := none }

/-- A root whose passthrough-TLS TCP proxy references a service with port
99999. -/
def pxTCPBigPort : HTTPProxy :=
  { ns := "a", name := "t", virtualHost := some ⟨"tcp.example.com", some ⟨"", true, "", false, none⟩⟩,
    routes := [],
    includes := [],
    tcpproxy := some tpBigPort }

/-- Snapshot where the port-99999 TCP service resolves. -/
def srcTCPBigPort : Source :=
  { httpproxies := [pxTCPBigPort], services := [svcBigPort], secrets := [], delegations := [],
    rootNamespaces := [] }

/-- The same snapshot with the service removed: the lookup fails. -/
def srcTCPBigPortMissing : Source :=
  { httpproxies := [pxTCPBigPort], services := [], secrets := [], delegations := [],
    rootNamespaces := [] }

/-- Two roots claiming one FQDN (C1 witness). -/
def pxConflictOne : HTTPProxy :=
  { ns := "a", name := "one", virtualHost := some ⟨"ex.com", none⟩, routes := [blankRouteSpec],
    includes := [], tcpproxy := none }

/-- Second root claiming the same FQDN. -/
def pxConflictTwo : HTTPProxy :=
  { ns := "a", name := "two", virtualHost := some ⟨"ex.com", none⟩, routes := [blankRouteSpec],
    includes := [], tcpproxy := none }

/-- Snapshot for the C1 witness. -/
def srcConflict : Source :=
  { httpproxies := [pxConflictTwo, pxConflictOne], services := [], secrets := [],
    delegations := [], rootNamespaces := [] }

/-! # Theorems -/

/-! ## C9: SNI priority -/

/-- C9: the SNI of a cluster follows the priority order
cluster-level request-headers Host rewrite (when non-empty), then the
route-level request-headers Host rewrite (when non-empty), then the
upstream service's external name. -/
theorem c9_determineSNI_priority (routeHP clusterHP : Option HeadersPolicy) (s : Service) :
    (∀ c, clusterHP = some c → c.hostRewrite ≠ "" →
        determineSNI routeHP clusterHP s = c.hostRewrite) ∧
    (∀ r, routeHP = some r → r.hostRewrite ≠ "" →
        (∀ c, clusterHP = some c → c.hostRewrite = "") →
        determineSNI routeHP clusterHP s = r.hostRewrite) ∧
    ((∀ c, clusterHP = some c → c.hostRewrite = "") →
        (∀ r, routeHP = some r → r.hostRewrite = "") →
        determineSNI routeHP clusterHP s = s.externalName) := by
  refine ⟨?_, ?_, ?_⟩
  · rintro c rfl hc
    simp [determineSNI, hc]
  · rintro r rfl hr hc
    cases clusterHP with
    | none => simp [determineSNI, hr]
    | some c => simp [determineSNI, hc c rfl, hr]
  · intro hc hr
    cases clusterHP with
    | none =>
      cases routeHP with
      | none => simp [determineSNI]
      | some r => simp [determineSNI, hr r rfl]
    | some c =>
      cases routeHP with
      | none => simp [determineSNI, hc c rfl]
      | some r => simp [determineSNI, hc c rfl, hr r rfl]

/-- Witness for C9 at concrete policies: the cluster rewrite wins, then
the route rewrite, then the external name of `svcW`. -/
theorem c9_witness :
    determineSNI (some ⟨"route.host", [], []⟩) (some ⟨"svc.host", [], []⟩) svcW = "svc.host" ∧
    determineSNI (some ⟨"route.host", [], []⟩) (some ⟨"", [], []⟩) svcW = "route.host" ∧
    determineSNI none none svcW = "up.example.com" := by
  refine ⟨?_, ?_, ?_⟩
  · exact (c9_determineSNI_priority (some ⟨"route.host", [], []⟩) (some ⟨"svc.host", [], []⟩) svcW).1
      ⟨"svc.host", [], []⟩ rfl (by decide)
  · exact (c9_determineSNI_priority (some ⟨"route.host", [], []⟩) (some ⟨"", [], []⟩) svcW).2.1
      ⟨"route.host", [], []⟩ rfl (by decide) (by rintro c ⟨rfl⟩; rfl)
  · exact (c9_determineSNI_priority none none svcW).2.2 (by rintro c ⟨⟩) (by rintro r ⟨⟩)

/-! ## C7: HTTPS upgrade flag -/

/-- C7: every route record the route loop builds carries
`HTTPSUpgrade = enforceTLS && !(permitInsecure && !DisablePermitInsecure)`;
in particular, when `DisablePermitInsecure` is set, `permitInsecure` never
prevents the upgrade. -/
theorem c7_httpsUpgrade_law (cfg : Config) (conds : List MatchCondition) (route : RouteSpec)
    (enforceTLS : Bool) (reqHP respHP : Option HeadersPolicy) :
    (buildRoute cfg conds route enforceTLS reqHP respHP).httpsUpgrade
        = (enforceTLS && !(route.permitInsecure && !cfg.disablePermitInsecure)) ∧
    (cfg.disablePermitInsecure = true →
      (buildRoute cfg conds route enforceTLS reqHP respHP).httpsUpgrade = enforceTLS) := by
  constructor
  · rfl
  · intro h
    simp [buildRoute, routeEnforceTLS, h]

/-- Witness for C7: with `DisablePermitInsecure` set, a route opting into
`permitInsecure` still gets the HTTPS upgrade under a TLS vhost. -/
theorem c7_witness :
    (buildRoute ⟨true, none⟩ [] { blankRouteSpec with permitInsecure := true } true none none).httpsUpgrade
      = true := by
  exact (c7_httpsUpgrade_law ⟨true, none⟩ [] { blankRouteSpec with permitInsecure := true }
    true none none).2 rfl

/-! ## C5: non-prefix routes make prefix expansion panic -/

/-- C5 (code bug): a route list containing a route whose path condition is
an exact match makes `expandPrefixMatches` panic instead of passing the
route through: the pass-through `append` is not followed by `continue`,
so the unchecked `*PrefixMatchCondition` type assertion fails.  The Go
panic is `none` in the embedding. -/
theorem c5_expand_panics_on_exact_path :
    expandPrefixMatches [rExactC5] = none ∧
    expandPrefixMatches [rFooC4, rExactC5] = none := ⟨rfl, rfl⟩

/-! ## C4: the prefix-expansion pair law -/

/-- Everything a group contributes in the second pass is in the flattened
output. -/
theorem mem_flattenContribs {groups : List (String × List Route)} {out : List Route}
    {p : String} {g c : List Route}
    (hmem : (p, g) ∈ groups) (hc : groupContribution p g = some c)
    (hflat : flattenContribs groups = some out) :
    ∀ x ∈ c, x ∈ out := by
  induction groups generalizing out with
  | nil => cases hmem
  | cons hd tl ih =>
    obtain ⟨k, gg⟩ := hd
    rw [List.mem_cons] at hmem
    simp only [flattenContribs] at hflat
    cases hck : groupContribution k gg with
    | none => rw [hck] at hflat; cases hflat
    | some cc =>
      rw [hck] at hflat
      cases hft : flattenContribs tl with
      | none => rw [hft] at hflat; cases hflat
      | some rest =>
        rw [hft] at hflat
        cases hflat
        rcases hmem with heq | htl
        · cases heq
          rw [hck] at hc
          cases hc
          intro x hx
          exact List.mem_append_left _ hx
        · intro x hx
          exact List.mem_append_right _ (ih htl hft x hx)

/-- C4: for an input group of exactly one route with a non-empty rewrite
and a non-`/` prefix, the expansion output contains the pair of
slash-variant routes (prefix `p` with the slash-trimmed rewrite,
normalized to `/` when empty, and prefix `p + "/"` with the trimmed
rewrite plus `/`); a group of size two passes through unmodified. -/
theorem c4_expand_pair_law (routes out : List Route) (groups : List (String × List Route))
    (p : String) (g : List Route)
    (hgather : gatherGroupsAux routes [] = some groups)
    (hflat : flattenContribs groups = some out)
    (hmem : (p, g) ∈ groups) :
    expandPrefixMatches routes = some out ∧
    (∀ r q, g = [r] → r.prefixRewrite ≠ "" → r.pathMatchCondition = .prefixCond q → q ≠ "/" →
      ({ r with pathMatchCondition := .prefixCond p,
                prefixRewrite := if trimRightSlashes r.prefixRewrite = "" then "/"
                                 else trimRightSlashes r.prefixRewrite } : Route) ∈ out ∧
      ({ r with pathMatchCondition := .prefixCond (p ++ "/"),
                prefixRewrite := trimRightSlashes r.prefixRewrite ++ "/" } : Route) ∈ out) ∧
    (∀ r1 r2, g = [r1, r2] → r1 ∈ out ∧ r2 ∈ out) := by
  refine ⟨?_, ?_, ?_⟩
  · simp [expandPrefixMatches, hgather, hflat]
  · rintro r q rfl hrw hpath hq
    have hc : groupContribution p [r] =
        some [{ r with pathMatchCondition := .prefixCond p,
                       prefixRewrite := if trimRightSlashes r.prefixRewrite = "" then "/"
                                        else trimRightSlashes r.prefixRewrite },
              { r with pathMatchCondition := .prefixCond (p ++ "/"),
                       prefixRewrite := trimRightSlashes r.prefixRewrite ++ "/" }] := by
      simp only [groupContribution]
      rw [if_neg hrw, hpath]
      simp only [if_neg hq]
    have hall := mem_flattenContribs hmem hc hflat
    exact ⟨hall _ (by simp), hall _ (by simp)⟩
  · rintro r1 r2 rfl
    have hc : groupContribution p [r1, r2] = some [r1, r2] := rfl
    have hall := mem_flattenContribs hmem hc hflat
    exact ⟨hall _ (by simp), hall _ (by simp)⟩

/-- Witness for C4: the `/foo → /bar` route expands into the
`/foo` and `/foo/` pair, and the already-supplied two-route group for
`/p` passes through unmodified. -/
theorem c4_witness :
    ({ rFooC4 with pathMatchCondition := .prefixCond "/foo",
                   prefixRewrite := if trimRightSlashes rFooC4.prefixRewrite = "" then "/" else trimRightSlashes rFooC4.prefixRewrite } : Route)
      ∈ [rFooC4, { rFooC4 with pathMatchCondition := .prefixCond "/foo/", prefixRewrite := "/bar/" }] ∧
    ({ rFooC4 with pathMatchCondition := .prefixCond ("/foo" ++ "/"),
                   prefixRewrite := trimRightSlashes rFooC4.prefixRewrite ++ "/" } : Route)
      ∈ [rFooC4, { rFooC4 with pathMatchCondition := .prefixCond "/foo/", prefixRewrite := "/bar/" }] ∧
    (rPairA ∈ [rPairA, rPairB] ∧ rPairB ∈ [rPairA, rPairB]) := by
  have h1 := c4_expand_pair_law [rFooC4]
    [rFooC4, { rFooC4 with pathMatchCondition := .prefixCond "/foo/", prefixRewrite := "/bar/" }]
    [("/foo", [rFooC4])] "/foo" [rFooC4] rfl rfl (by simp)
  have h2 := c4_expand_pair_law [rPairA, rPairB] [rPairA, rPairB]
    [("/p", [rPairA, rPairB])] "/p" [rPairA, rPairB] rfl rfl (by simp)
  have hp := h1.2.1 rFooC4 "/foo" rfl (by decide) rfl (by decide)
  exact ⟨hp.1, hp.2, h2.2.2 rPairA rPairB rfl⟩

/-! ## C6: duplicate-include detection is adjacent-only -/

/-- C6 counterexample: a proxy whose includes at positions 0 and 2 carry
identical conditions (same prefix, equal header) is not flagged — the
detector only compares adjacent includes — and `computeRoutes` marks it
valid instead of invalid with the duplicate-conditions message. -/
theorem c6_counterexample :
    includesClash (pxDupRoot.includes.getD 2 ⟨"", "", []⟩) (pxDupRoot.includes.getD 0 ⟨"", "", []⟩)
        = true ∧
    includeMatchConditionsIdentical pxDupRoot.includes = false ∧
    (computeRoutesF srcDup cfg0 3 (nnOf pxDupRoot) pxDupRoot [] [] false st0).map
        (fun r => statusOf r.fst.statuses (nnOf pxDupRoot)) = some (some .valid) := by
  refine ⟨by decide, by decide, by decide⟩

/-- C6 (amended): the detector fires exactly when two consecutive includes
share a condition with equal prefix and deep-equal header; when it fires
(and no cycle is detected first) `computeRoutes` marks the proxy invalid
with `duplicate conditions defined on an include` and returns no routes. -/
theorem c6_adjacent_duplicate_law (incs : List Include) (src : Source) (cfg : Config)
    (fuel : Nat) (swOwner : NamespacedName) (proxy : HTTPProxy)
    (conditions : List MatchCondition) (visited : List HTTPProxy) (enforceTLS : Bool)
    (st : RunState) :
    (includeMatchConditionsIdentical incs = true ↔
      ∃ l1 a b l2, incs = l1 ++ a :: b :: l2 ∧ includesClash b a = true) ∧
    (proxy.includes = incs → includeMatchConditionsIdentical incs = true →
      visited.any (fun v => decide (v.name = proxy.name ∧ v.ns = proxy.ns)) = false →
      computeRoutesF src cfg (fuel + 1) swOwner proxy conditions visited enforceTLS st
        = some (stInvalid st swOwner "duplicate conditions defined on an include", [])) := by
  constructor
  · constructor
    · intro h
      induction incs with
      | nil => cases h
      | cons a tl ih =>
        cases tl with
        | nil => cases h
        | cons b rest =>
          rw [includeMatchConditionsIdentical, Bool.or_eq_true] at h
          rcases h with h | h
          · exact ⟨[], a, b, rest, rfl, h⟩
          · obtain ⟨l1, x, y, l2, heq, hcl⟩ := ih h
            exact ⟨a :: l1, x, y, l2, by rw [List.cons_append, heq], hcl⟩
    · rintro ⟨l1, a, b, l2, rfl, hcl⟩
      induction l1 with
      | nil => rw [List.nil_append, includeMatchConditionsIdentical, hcl, Bool.true_or]
      | cons c tl ih =>
        rw [List.cons_append]
        cases htl : tl ++ a :: b :: l2 with
        | nil => exact absurd (List.append_eq_nil.mp htl).2 (by simp)
        | cons d rest =>
          rw [includeMatchConditionsIdentical, Bool.or_eq_true]
          right
          rw [← htl]
          exact ih
  · intro hpi hdup hcyc
    rw [computeRoutesF, hcyc]
    simp only [Bool.false_eq_true, if_false, hpi, hdup, if_true]

/-- Witness for C6 (amended): a root with two identical adjacent includes
is flagged by the detector and marked invalid by `computeRoutes` with no
routes returned. -/
theorem c6_witness :
    includeMatchConditionsIdentical pxAdjDupRoot.includes = true ∧
    computeRoutesF srcAdjDup cfg0 3 (nnOf pxAdjDupRoot) pxAdjDupRoot [] [] false st0
      = some (stInvalid st0 (nnOf pxAdjDupRoot) "duplicate conditions defined on an include", []) := by
  have h := c6_adjacent_duplicate_law pxAdjDupRoot.includes srcAdjDup cfg0 2 (nnOf pxAdjDupRoot)
    pxAdjDupRoot [] [] false st0
  have hdet : includeMatchConditionsIdentical pxAdjDupRoot.includes = true :=
    (h.1).mpr ⟨[], ⟨"L", "a", [⟨"/a", none⟩]⟩, ⟨"L", "a", [⟨"/a", none⟩]⟩, [], rfl, by decide⟩
  exact ⟨hdet, h.2 rfl hdet (by decide)⟩

/-! ## C2: delegation-cycle detection in both walks -/

/-- C2: when either walk reaches a document already on the ancestor path,
the status writer is set invalid with a message whose chain part is the
same in both walks — the ancestor path followed by the re-entered node,
joined by `" -> "` (`delegationChain`) — and the walk produces no routes
(respectively reports failure without attaching a TCP proxy). -/
theorem c2_delegation_cycle (src : Source) (cfg : Config) (fuel : Nat)
    (swOwner : NamespacedName) (proxy : HTTPProxy) (conditions : List MatchCondition)
    (visited : List HTTPProxy) (enforceTLS : Bool) (st : RunState)
    (httpproxy dest : HTTPProxy) (tp : TCPProxySpec) (inc : TCPProxyInclude) (host : String) :
    (visited.any (fun v => decide (v.name = proxy.name ∧ v.ns = proxy.ns)) = true →
      computeRoutesF src cfg (fuel + 1) swOwner proxy conditions visited enforceTLS st
        = some (stInvalid st swOwner
            ("include creates a delegation cycle: " ++ delegationChain visited proxy), [])) ∧
    (httpproxy.tcpproxy = some tp → tp.services = [] → tcpIncludeOf tp = some inc →
      lookupProxy src (tcpTargetNN httpproxy inc) = some dest →
      dest.virtualHost = none →
      (visited ++ [httpproxy]).any (fun hp => decide (dest.name = hp.name ∧ dest.ns = hp.ns)) = true →
      processHTTPProxyTCPProxy src (fuel + 1) swOwner httpproxy visited host st
        = some (stInvalid { st with orphaned := deleteOrphaned st.orphaned (nnOf dest) } swOwner
            ("tcpproxy include creates a cycle: " ++ delegationChain (visited ++ [httpproxy]) dest),
          false)) := by
  constructor
  · intro hcyc
    rw [computeRoutesF, hcyc]
    simp only [if_true]
  · intro htp hsvc hinc hlook hroot hcyc
    rw [processHTTPProxyTCPProxy, htp]
    have hlook' : lookupProxy src ⟨if inc.ns = "" then httpproxy.ns else inc.ns, inc.name⟩
        = some dest := hlook
    simp only [hinc, hsvc, List.length_nil, Nat.lt_irrefl, decide_False, Bool.false_and,
      Bool.false_eq_true, if_false, Option.isSome_some, Bool.and_true, hlook', hroot,
      Option.isSome_none, hcyc, if_true]

/-- Witness for C2: a leaf re-entered through `a/R -> a/L -> a/L` gets the
HTTP cycle message, and a TCP proxy including its own document gets the
TCP cycle message, both chains formatted by `delegationChain`. -/
theorem c2_witness :
    computeRoutesF srcDup cfg0 3 (nnOf pxLeafW) pxLeafW [] [pxDupRoot, pxLeafW] false st0
      = some (stInvalid st0 (nnOf pxLeafW)
          ("include creates a delegation cycle: " ++ delegationChain [pxDupRoot, pxLeafW] pxLeafW),
        []) ∧
    processHTTPProxyTCPProxy srcTCPSelf 3 (nnOf pxTCPSelf) pxTCPSelf [] "tcp.example.com" st0
      = some (stInvalid { st0 with orphaned := deleteOrphaned st0.orphaned (nnOf pxTCPSelf) }
          (nnOf pxTCPSelf)
          ("tcpproxy include creates a cycle: " ++ delegationChain ([] ++ [pxTCPSelf]) pxTCPSelf),
        false) := by
  constructor
  · exact (c2_delegation_cycle srcDup cfg0 2 (nnOf pxLeafW) pxLeafW [] [pxDupRoot, pxLeafW]
      false st0 pxLeafW pxLeafW ⟨[], none, none, none, none⟩ ⟨"", ""⟩ "").1 (by decide)
  · exact (c2_delegation_cycle srcTCPSelf cfg0 2 (nnOf pxTCPSelf) pxTCPSelf [] []
      false st0 pxTCPSelf pxTCPSelf
      ⟨[], some ⟨"T", "a"⟩, none, none, none⟩ ⟨"T", "a"⟩ "tcp.example.com").2
      rfl rfl rfl (by decide) rfl (by decide)

/-! ## C1: FQDN conflicts invalidate every contributor -/

/-- Membership in an FQDN group is snapshot membership as a root with that
FQDN. -/
theorem mem_rootsWithFqdn {l : List HTTPProxy} {f : String} {p : HTTPProxy} :
    p ∈ rootsWithFqdn l f ↔ p ∈ l ∧ ∃ v, p.virtualHost = some v ∧ v.fqdn = f := by
  unfold rootsWithFqdn
  rw [List.mem_filter]
  constructor
  · rintro ⟨hl, hb⟩
    refine ⟨hl, ?_⟩
    cases hv : p.virtualHost with
    | none => rw [hv] at hb; cases hb
    | some v =>
      rw [hv] at hb
      exact ⟨v, rfl, of_decide_eq_true hb⟩
  · rintro ⟨hl, v, hv, hf⟩
    refine ⟨hl, ?_⟩
    rw [hv]
    exact decide_eq_true hf

/-- A conflicting FQDN group writes the invalid conflict status for each
of its members. -/
theorem fqdnPass_status_mem {l : List HTTPProxy} {fs : List String} {f : String}
    (hf : f ∈ fs) (hlen : (rootsWithFqdn l f).length ≠ 1) {q : HTTPProxy}
    (hq : q ∈ rootsWithFqdn l f) :
    (nnOf q, Status.invalid (fqdnConflictMsg f (rootsWithFqdn l f))) ∈ (fqdnPass l fs).snd := by
  induction fs with
  | nil => cases hf
  | cons f0 fs ih =>
    by_cases h0 : f = f0
    · subst h0
      cases hg : rootsWithFqdn l f with
      | nil => rw [hg] at hq; cases hq
      | cons x xs =>
        cases xs with
        | nil => rw [hg] at hlen; exact absurd rfl hlen
        | cons y ys =>
          rw [hg] at hq
          simp only [fqdnPass, hg]
          exact List.mem_append_left _ (List.mem_map_of_mem _ hq)
    · have hf' : f ∈ fs := (List.mem_cons.mp hf).resolve_left h0
      have hrest := ih hf'
      cases hg0 : rootsWithFqdn l f0 with
      | nil =>
        simp only [fqdnPass, hg0, List.map_nil, List.nil_append]
        exact hrest
      | cons x xs =>
        cases xs with
        | nil =>
          simp only [fqdnPass, hg0]
          exact hrest
        | cons y ys =>
          simp only [fqdnPass, hg0]
          exact List.mem_append_right _ hrest

/-- Everything the FQDN pass admits to the valid list is the unique root
of its FQDN. -/
theorem fqdnPass_valid_mem {l : List HTTPProxy} {fs : List String} {p : HTTPProxy}
    (hp : p ∈ (fqdnPass l fs).fst) :
    ∃ f ∈ fs, rootsWithFqdn l f = [p] := by
  induction fs with
  | nil => simp only [fqdnPass] at hp; cases hp
  | cons f0 fs ih =>
    cases hg0 : rootsWithFqdn l f0 with
    | nil =>
      simp only [fqdnPass, hg0] at hp
      obtain ⟨f, hf, he⟩ := ih hp
      exact ⟨f, List.mem_cons_of_mem _ hf, he⟩
    | cons x xs =>
      cases xs with
      | nil =>
        simp only [fqdnPass, hg0] at hp
        rw [List.mem_cons] at hp
        rcases hp with rfl | hp
        · exact ⟨f0, List.mem_cons_self _ _, hg0⟩
        · obtain ⟨f, hf, he⟩ := ih hp
          exact ⟨f, List.mem_cons_of_mem _ hf, he⟩
      | cons y ys =>
        simp only [fqdnPass, hg0] at hp
        obtain ⟨f, hf, he⟩ := ih hp
        exact ⟨f, List.mem_cons_of_mem _ hf, he⟩

/-- The string order of the embedded `sort.Strings` is total. -/
theorem charListLe_total : ∀ a b : List Char, charListLe a b = true ∨ charListLe b a = true := by
  intro a
  induction a with
  | nil => intro b; left; rfl
  | cons x xs ih =>
    intro b
    cases b with
    | nil => right; rfl
    | cons y ys =>
      by_cases h1 : x.val < y.val
      · left; simp [charListLe, h1]
      · by_cases h2 : y.val < x.val
        · right; simp [charListLe, h2]
        · rcases ih ys with h | h
          · left; simp [charListLe, h1, h2, h]
          · right; simp [charListLe, h1, h2, h]

/-- String-level totality. -/
theorem strLe_total (a b : String) : strLe a b = true ∨ strLe b a = true :=
  charListLe_total a.toList b.toList

/-- Sorted insertion preserves sortedness. -/
theorem isSortedLe_insertSorted (x : String) :
    ∀ l, isSortedLe l = true → isSortedLe (insertSorted x l) = true := by
  intro l
  induction l with
  | nil => intro _; rfl
  | cons y ys ih =>
    intro h
    by_cases hxy : strLe x y = true
    · simp only [insertSorted, if_pos hxy, isSortedLe, hxy, Bool.true_and]
      exact h
    · have hyx : strLe y x = true := (strLe_total x y).resolve_left hxy
      simp only [insertSorted, if_neg hxy]
      cases ys with
      | nil => simp [insertSorted, isSortedLe, hyx]
      | cons z zs =>
        have hsz : strLe y z = true ∧ isSortedLe (z :: zs) = true := by
          simpa [isSortedLe, Bool.and_eq_true] using h
        by_cases hxz : strLe x z = true
        · simp [insertSorted, hxz, isSortedLe, hyx, hsz.2]
        · have ht := ih hsz.2
          simp only [insertSorted, if_neg hxz] at ht
          simp only [insertSorted, if_neg hxz, isSortedLe, hsz.1, Bool.true_and]
          exact ht

/-- The embedded `sort.Strings` produces a sorted list. -/
theorem isSortedLe_sortStrings (l : List String) : isSortedLe (sortStrings l) = true := by
  unfold sortStrings
  induction l with
  | nil => rfl
  | cons x xs ih => exact isSortedLe_insertSorted x _ ih

/-- C1: when two distinct roots claim one FQDN, each carrier of that FQDN
is committed invalid with the `fqdn %q is used in multiple HTTPProxies`
message whose namespaced names are sorted, and none of them is returned in
the valid set `computeHTTPProxies` processes (hence none contributes
routes). -/
theorem c1_fqdn_conflict (src : Source) (p q : HTTPProxy) (vh vq : VirtualHostSpec)
    (hp : p ∈ src.httpproxies) (hv : p.virtualHost = some vh)
    (hq : q ∈ src.httpproxies) (hqv : q.virtualHost = some vq)
    (hne : q ≠ p) (hfq : vq.fqdn = vh.fqdn) :
    ((nnOf p, Status.invalid (fqdnConflictMsg vh.fqdn (rootsWithFqdn src.httpproxies vh.fqdn)))
        ∈ (validHTTPProxies src).snd) ∧
    p ∉ (validHTTPProxies src).fst ∧
    isSortedLe (sortStrings ((rootsWithFqdn src.httpproxies vh.fqdn).map
        (fun r => r.ns ++ "/" ++ r.name))) = true := by
  have hpm : p ∈ rootsWithFqdn src.httpproxies vh.fqdn :=
    mem_rootsWithFqdn.mpr ⟨hp, vh, hv, rfl⟩
  have hqm : q ∈ rootsWithFqdn src.httpproxies vh.fqdn :=
    mem_rootsWithFqdn.mpr ⟨hq, vq, hqv, hfq⟩
  have hlen : (rootsWithFqdn src.httpproxies vh.fqdn).length ≠ 1 := by
    intro h1
    obtain ⟨a, ha⟩ := List.length_eq_one.mp h1
    rw [ha] at hpm hqm
    rw [List.mem_singleton] at hpm hqm
    exact hne (hqm.trans hpm.symm)
  have hf : vh.fqdn ∈ rootFqdns src.httpproxies := by
    unfold rootFqdns
    rw [List.mem_dedup, List.mem_filterMap]
    exact ⟨p, hp, by rw [hv]; rfl⟩
  refine ⟨?_, ?_, isSortedLe_sortStrings _⟩
  · exact fqdnPass_status_mem hf hlen hpm
  · intro hmem
    unfold validHTTPProxies at hmem
    rw [List.mem_append] at hmem
    rcases hmem with hleaf | hpass
    · rw [List.mem_filter] at hleaf
      rw [hv] at hleaf
      cases hleaf.2
    · obtain ⟨f, _, heq⟩ := fqdnPass_valid_mem hpass
      have hpf : p ∈ rootsWithFqdn src.httpproxies f := by
        rw [heq]
        exact List.mem_singleton.mpr rfl
      obtain ⟨_, v, hv', hf'⟩ := mem_rootsWithFqdn.mp hpf
      rw [hv] at hv'
      cases hv'
      subst hf'
      rw [heq] at hqm
      exact hne (List.mem_singleton.mp hqm)

/-- Witness for C1: two roots claiming `ex.com` are both excluded from the
valid set and carry the sorted conflict message. -/
theorem c1_witness :
    ((nnOf pxConflictOne,
        Status.invalid "fqdn \"ex.com\" is used in multiple HTTPProxies: a/one, a/two")
      ∈ (validHTTPProxies srcConflict).snd) ∧
    pxConflictOne ∉ (validHTTPProxies srcConflict).fst := by
  have h := c1_fqdn_conflict srcConflict pxConflictOne pxConflictTwo
    ⟨"ex.com", none⟩ ⟨"ex.com", none⟩ (by decide) rfl (by decide) rfl (by decide) rfl
  exact ⟨h.1, h.2.1⟩

/-! ## C8: port-range validation applies only to HTTP route services -/

/-- C8 counterexample: a TCP proxy service carries port 99999, which is
outside `[1,65535]`, yet the referring document ends the run valid when
the lookup resolves; when the lookup fails the document is invalid with
the unresolved-reference message produced by the lookup — never with the
port-range message — so the port does not invalidate the document before
the upstream-service lookup. -/
theorem c8_counterexample :
    (∃ tp, pxTCPBigPort.tcpproxy = some tp ∧
      ∃ s ∈ tp.services, s.port < 1 ∨ s.port > 65535) ∧
    (runModel srcTCPBigPort cfg0).map (fun st => statusOf st.statuses (nnOf pxTCPBigPort))
      = some (some .valid) ∧
    (runModel srcTCPBigPortMissing cfg0).map (fun st => statusOf st.statuses (nnOf pxTCPBigPort))
      = some (some (.invalid
          "Spec.TCPProxy unresolved service reference: service \"a/s:99999\" not found")) := by
  refine ⟨⟨tpBigPort, rfl, ⟨{ blankServiceRef with name := "s", port := 99999 }, by decide, by decide⟩⟩,
    by decide, by decide⟩

/-- C8 (amended): the port-range check guards only the HTTP route service
loop, where an out-of-range port commits the port-range invalid message
and aborts (for every service table, hence before any lookup); the TCP
proxy service loop has no port check — when every service lookup
resolves, it succeeds with the state unchanged regardless of port values. -/
theorem c8_port_check_scope (src : Source) (swOwner : NamespacedName) (proxyNs : String)
    (route : RouteSpec) (st : RunState) (r : Route) (service : ServiceRef)
    (rest : List ServiceRef) (httpproxy : HTTPProxy) (tcpproxy : TCPProxySpec)
    (hport : service.port < 1 ∨ service.port > 65535) :
    (goServices src swOwner proxyNs route st r (service :: rest)
        = (stInvalid st swOwner
            ("service \"" ++ service.name ++ "\": port must be in the range 1-65535"), none)) ∧
    ((∀ s ∈ tcpproxy.services, ∃ u, lookupService src ⟨httpproxy.ns, s.name⟩ s.port = .ok u) →
      ∃ clusters, goTCPServices src swOwner httpproxy tcpproxy st [] tcpproxy.services
        = (st, some clusters)) := by
  constructor
  · rw [goServices, if_pos hport]
  · have haux : ∀ (svcs : List ServiceRef) (acc : List Cluster),
        (∀ s ∈ svcs, ∃ u, lookupService src ⟨httpproxy.ns, s.name⟩ s.port = .ok u) →
        ∃ clusters, goTCPServices src swOwner httpproxy tcpproxy st acc svcs
          = (st, some clusters) := by
      intro svcs
      induction svcs with
      | nil => intro acc _; exact ⟨acc, rfl⟩
      | cons s ss ih =>
        intro acc hall
        obtain ⟨u, hu⟩ := hall s (List.mem_cons_self _ _)
        rw [goTCPServices, hu]
        exact ih _ (fun s' hs' => hall s' (List.mem_cons_of_mem _ hs'))
    exact haux tcpproxy.services []

/-- Witness for C8 (amended): a port-0 HTTP route service is rejected
with the port-range message, while the port-99999 TCP service list
succeeds once its lookup resolves. -/
theorem c8_witness :
    goServices srcTCPBigPort (nnOf pxTCPBigPort) "a" blankRouteSpec st0 blankRoute
        [{ blankServiceRef with name := "web", port := 0 }]
      = (stInvalid st0 (nnOf pxTCPBigPort) "service \"web\": port must be in the range 1-65535",
         none) ∧
    (∃ clusters, goTCPServices srcTCPBigPort (nnOf pxTCPBigPort) pxTCPBigPort tpBigPort st0 []
        tpBigPort.services = (st0, some clusters)) := by
  have h := c8_port_check_scope srcTCPBigPort (nnOf pxTCPBigPort) "a" blankRouteSpec st0
    blankRoute { blankServiceRef with name := "web", port := 0 } [] pxTCPBigPort tpBigPort
    (by decide)
  refine ⟨h.1, h.2 ?_⟩
  intro s hs
  have hse : s = { blankServiceRef with name := "s", port := 99999 } := by
    simpa [tpBigPort] using hs
  subst hse
  exact ⟨svcBigPort, rfl⟩

/-! ## State-change bookkeeping for the walk

`StChange keys del st st'` records what one walk step may do to the run
state: it never adds to the orphan set, deletes only coordinates in `del`,
only grows the statuses, writes new status keys only in `keys`, and never
writes an orphaned status. -/

/-- Invariant relating the run state before and after a walk step. -/
structure StChange (keys del : NamespacedName → Prop) (st st' : RunState) : Prop where
  orphSub : ∀ n, n ∈ st'.orphaned → n ∈ st.orphaned
  orphKeep : ∀ n, n ∈ st.orphaned → ¬ del n → n ∈ st'.orphaned
  stMono : ∀ e, e ∈ st.statuses → e ∈ st'.statuses
  stKeys : ∀ m, ¬ keys m → st.statuses.any (fun e => decide (e.fst = m)) = false →
      st'.statuses.any (fun e => decide (e.fst = m)) = false
  stNoOrphan : ∀ e, e ∈ st'.statuses → e ∈ st.statuses ∨ ∀ d, e.snd ≠ Status.orphaned d

/-- The identity step. -/
theorem StChange.same {k d : NamespacedName → Prop} {st : RunState} : StChange k d st st :=
  ⟨fun _ h => h, fun _ h _ => h, fun _ h => h, fun _ _ h => h, fun _ h => Or.inl h⟩

/-- Steps compose. -/
theorem StChange.trans {k d : NamespacedName → Prop} {st st1 st2 : RunState}
    (h1 : StChange k d st st1) (h2 : StChange k d st1 st2) : StChange k d st st2 := by
  refine ⟨?_, ?_, ?_, ?_, ?_⟩
  · exact fun n h => h1.orphSub n (h2.orphSub n h)
  · exact fun n h hd => h2.orphKeep n (h1.orphKeep n h hd) hd
  · exact fun e h => h2.stMono e (h1.stMono e h)
  · exact fun m hk h => h2.stKeys m hk (h1.stKeys m hk h)
  · intro e h
    rcases h2.stNoOrphan e h with h' | h'
    · exact h1.stNoOrphan e h'
    · exact Or.inr h'

/-- Weakening the key and deletion bounds. -/
theorem StChange.mono {k k' d d' : NamespacedName → Prop} {st st' : RunState}
    (hk : ∀ m, k m → k' m) (hd : ∀ n, d n → d' n)
    (h : StChange k d st st') : StChange k' d' st st' := by
  refine ⟨h.orphSub, ?_, h.stMono, ?_, h.stNoOrphan⟩
  · exact fun n hn hnd => h.orphKeep n hn (fun hdn => hnd (hd n hdn))
  · exact fun m hm => h.stKeys m (fun hkm => hm (hk m hkm))

/-- Committing a non-orphan status touches only its own key. -/
theorem commitStatus_stchange (st : RunState) (n : NamespacedName) (s : Status)
    (hs : ∀ d, s ≠ Status.orphaned d) :
    StChange (· = n) (fun _ => False) st { st with statuses := commitStatus st.statuses n s } := by
  refine ⟨fun _ h => h, fun _ h _ => h, ?_, ?_, ?_⟩
  · intro e he
    unfold commitStatus
    by_cases hk : st.statuses.any (fun e => decide (e.fst = n)) = true
    · rw [if_pos hk]; exact he
    · rw [if_neg hk]; exact List.mem_append_left _ he
  · intro m hm hno
    unfold commitStatus
    by_cases hk : st.statuses.any (fun e => decide (e.fst = n)) = true
    · rw [if_pos hk]; exact hno
    · rw [if_neg hk, List.any_append, hno, Bool.false_or, List.any_cons, List.any_nil,
        Bool.or_false]
      exact decide_eq_false (fun he => hm he.symm)
  · intro e he
    unfold commitStatus at he
    by_cases hk : st.statuses.any (fun e => decide (e.fst = n)) = true
    · rw [if_pos hk] at he; exact Or.inl he
    · rw [if_neg hk, List.mem_append] at he
      rcases he with he | he
      · exact Or.inl he
      · rw [List.mem_singleton] at he
        subst he
        exact Or.inr hs

/-- `SetInvalid` as a state step. -/
theorem stInvalid_stchange (st : RunState) (n : NamespacedName) (msg : String) :
    StChange (· = n) (fun _ => False) st (stInvalid st n msg) :=
  commitStatus_stchange st n (.invalid msg) (fun _ h => by cases h)

/-- Deleting an orphan entry as a state step. -/
theorem delete_stchange (st : RunState) (tgt : NamespacedName) :
    StChange (fun _ => False) (· = tgt) st
      { st with orphaned := deleteOrphaned st.orphaned tgt } := by
  refine ⟨?_, ?_, fun _ h => h, fun _ _ h => h, fun _ h => Or.inl h⟩
  · intro n h
    exact (List.mem_filter.mp h).1
  · intro n h hne
    exact List.mem_filter.mpr ⟨h, decide_eq_true hne⟩

/-- Changing only the virtual-host tables is a silent step. -/
theorem vhostOnly_stchange {k d : NamespacedName → Prop} (st : RunState)
    (vhs : List (String × List Route)) (svs : List (String × SecureVirtualHost)) :
    StChange k d st { st with vhosts := vhs, svhosts := svs } :=
  ⟨fun _ h => h, fun _ h _ => h, fun _ h => h, fun _ _ h => h, fun _ h => Or.inl h⟩

/-- A snapshot lookup returns a member with the looked-up coordinate. -/
theorem lookupProxy_eq {src : Source} {key : NamespacedName} {d : HTTPProxy}
    (h : lookupProxy src key = some d) :
    d ∈ src.httpproxies ∧ nnOf d = key := by
  unfold lookupProxy at h
  have h1 := List.mem_of_find?_eq_some h
  have h2 := List.find?_some h
  simp only [decide_eq_true_eq] at h2
  exact ⟨h1, h2⟩

/-- HTTP include targets of snapshot documents are global include targets. -/
theorem includeTarget_mem_all {src : Source} {q : HTTPProxy} {inc : Include}
    (hq : q ∈ src.httpproxies) (hinc : inc ∈ q.includes) :
    includeTargetNN q inc ∈ allIncludeTargets src := by
  unfold allIncludeTargets
  rw [List.mem_flatMap]
  refine ⟨q, hq, ?_⟩
  unfold docIncludeTargets
  exact List.mem_append_left _ (List.mem_map_of_mem _ hinc)

/-- TCP include targets of snapshot documents are global include targets. -/
theorem tcpTarget_mem_all {src : Source} {q : HTTPProxy} {tp : TCPProxySpec}
    {i : TCPProxyInclude} (hq : q ∈ src.httpproxies) (htp : q.tcpproxy = some tp)
    (hi : tcpIncludeOf tp = some i) :
    tcpTargetNN q i ∈ allIncludeTargets src := by
  unfold allIncludeTargets
  rw [List.mem_flatMap]
  refine ⟨q, hq, ?_⟩
  unfold docIncludeTargets
  apply List.mem_append_right
  simp [htp, hi]

/-- The service loop only ever commits a status for its owner. -/
theorem goServices_stchange (src : Source) (swOwner : NamespacedName) (proxyNs : String)
    (route : RouteSpec) :
    ∀ (svcs : List ServiceRef) (st : RunState) (r : Route) out,
    goServices src swOwner proxyNs route st r svcs = out →
    StChange (· = swOwner) (fun _ => False) st out.fst := by
  intro svcs
  induction svcs with
  | nil =>
    intro st r out hout
    rw [goServices] at hout
    subst hout
    exact StChange.same
  | cons svc rest ih =>
    intro st r out hout
    rw [goServices] at hout
    repeat' split at hout
    all_goals first
      | (subst hout; exact stInvalid_stchange st swOwner _)
      | (exact ih _ _ _ hout)

/-- The route loop only ever commits a status for its owner. -/
theorem goRoutes_stchange (src : Source) (cfg : Config) (swOwner : NamespacedName)
    (proxy : HTTPProxy) (conditions : List MatchCondition) (enforceTLS : Bool) :
    ∀ (rts : List RouteSpec) (st : RunState) (acc : List Route) out,
    goRoutes src cfg swOwner proxy conditions enforceTLS rts st acc = out →
    StChange (· = swOwner) (fun _ => False) st out.fst := by
  intro rts
  induction rts with
  | nil =>
    intro st acc out hout
    rw [goRoutes] at hout
    subst hout
    exact StChange.same
  | cons route rest ih =>
    intro st acc out hout
    rw [goRoutes] at hout
    split at hout
    · subst hout; exact stInvalid_stchange st swOwner _
    · split at hout
      · subst hout; exact stInvalid_stchange st swOwner _
      · split at hout
        · subst hout; exact stInvalid_stchange st swOwner _
        · split at hout
          · subst hout; exact stInvalid_stchange st swOwner _
          · split at hout
            · subst hout; exact stInvalid_stchange st swOwner _
            · split at hout
              · subst hout; exact stInvalid_stchange st swOwner _
              · split at hout
                · rename_i st1 heq
                  subst hout
                  exact goServices_stchange src swOwner proxy.ns route _ _ _ _ heq
                · rename_i st1 r2 heq
                  exact (goServices_stchange src swOwner proxy.ns route _ _ _ _ heq).trans
                    (ih _ _ _ hout)

/-- The TCP service loop only ever commits a status for its owner. -/
theorem goTCPServices_stchange (src : Source) (swOwner : NamespacedName)
    (httpproxy : HTTPProxy) (tcpproxy : TCPProxySpec) :
    ∀ (svcs : List ServiceRef) (st : RunState) (acc : List Cluster) out,
    goTCPServices src swOwner httpproxy tcpproxy st acc svcs = out →
    StChange (· = swOwner) (fun _ => False) st out.fst := by
  intro svcs
  induction svcs with
  | nil =>
    intro st acc out hout
    rw [goTCPServices] at hout
    subst hout
    exact StChange.same
  | cons svc rest ih =>
    intro st acc out hout
    rw [goTCPServices] at hout
    split at hout
    · subst hout; exact stInvalid_stchange st swOwner _
    · exact ih _ _ _ hout

/-- The include loop: statuses written are for its owner or for delegates
the recursive walk handles, orphan deletions are the delegates' keys;
`hrec` supplies the recursive walk's behavior, `hdel` says deleted keys
are in the deletion bound. -/
theorem goIncludesWith_stchange (src : Source)
    (recur : HTTPProxy → List MatchCondition → RunState → Option (RunState × List Route))
    (swOwner : NamespacedName) (proxy : HTTPProxy) (conditions : List MatchCondition)
    {K D : NamespacedName → Prop} (hKsw : K swOwner) :
    ∀ (incs : List Include),
    (∀ inc, inc ∈ incs → ∀ d c s out1,
      lookupProxy src (includeTargetNN proxy inc) = some d →
      recur d c s = some out1 → StChange K D s out1.fst) →
    (∀ inc, inc ∈ incs → ∀ d,
      lookupProxy src (includeTargetNN proxy inc) = some d → D (nnOf d)) →
    ∀ (st : RunState) (acc : List Route) out,
    goIncludesWith src recur swOwner proxy conditions incs st acc = some out →
    StChange K D st out.fst := by
  intro incs
  induction incs with
  | nil =>
    intro _ _ st acc out hout
    rw [goIncludesWith] at hout
    cases hout
    exact StChange.same
  | cons inc rest ih =>
    intro hrec hdel st acc out hout
    rw [goIncludesWith] at hout
    split at hout
    · cases hout
      exact (stInvalid_stchange st swOwner _).mono
        (fun m hm => by cases hm; exact hKsw) (fun n h => h.elim)
    · rename_i delegate hlook
      split at hout
      · cases hout
        exact (stInvalid_stchange st swOwner _).mono
          (fun m hm => by cases hm; exact hKsw) (fun n h => h.elim)
      · split at hout
        · cases hout
          exact (stInvalid_stchange st swOwner _).mono
            (fun m hm => by cases hm; exact hKsw) (fun n h => h.elim)
        · split at hout
          · cases hout
          · rename_i st1 rs hrec1
            have h1 : StChange K D st st1 :=
              hrec inc (List.mem_cons_self _ _) _ _ _ (st1, rs) hlook hrec1
            have h2 : StChange K D st1
                { st1 with orphaned := deleteOrphaned st1.orphaned (nnOf delegate) } :=
              (delete_stchange st1 (nnOf delegate)).mono (fun m h => h.elim)
                (fun n hn => by cases hn; exact hdel inc (List.mem_cons_self _ _) _ hlook)
            have h3 := ih (fun i hi => hrec i (List.mem_cons_of_mem _ hi))
              (fun i hi => hdel i (List.mem_cons_of_mem _ hi)) _ _ _ hout
            exact (h1.trans h2).trans h3

/-- `computeRoutes` commits statuses only for its owner and for include
targets, and deletes only include targets from the orphan set. -/
theorem computeRoutesF_stchange (src : Source) (cfg : Config) :
    ∀ (fuel : Nat) (swOwner : NamespacedName) (proxy : HTTPProxy)
      (conditions : List MatchCondition) (visited : List HTTPProxy) (enforceTLS : Bool)
      (st : RunState) (out : RunState × List Route),
    proxy ∈ src.httpproxies →
    computeRoutesF src cfg fuel swOwner proxy conditions visited enforceTLS st = some out →
    StChange (fun m => m = swOwner ∨ m ∈ allIncludeTargets src)
      (fun n => n ∈ allIncludeTargets src) st out.fst := by
  intro fuel
  induction fuel with
  | zero => intro _ _ _ _ _ _ _ _ h; cases h
  | succ fuel ih =>
    intro swOwner proxy conditions visited enforceTLS st out hp h
    have hginc : ∀ (s1 : RunState) (ors : Option (List Route)),
        goIncludesWith src
          (fun d c s => computeRoutesF src cfg fuel (nnOf d) d c (visited ++ [proxy]) enforceTLS s)
          swOwner proxy conditions proxy.includes st [] = some (s1, ors) →
        StChange (fun m => m = swOwner ∨ m ∈ allIncludeTargets src)
          (fun n => n ∈ allIncludeTargets src) st s1 := by
      intro s1 ors hgi
      refine goIncludesWith_stchange src _ swOwner proxy conditions (Or.inl rfl)
        proxy.includes ?_ ?_ st [] (s1, ors) hgi
      · intro inc hinc d c s out1 hlook hr
        obtain ⟨hd, hnn⟩ := lookupProxy_eq hlook
        have hkid := ih (nnOf d) d c (visited ++ [proxy]) enforceTLS s out1 hd hr
        refine hkid.mono ?_ (fun n hn => hn)
        intro m hm
        rcases hm with he | hm
        · cases he
          right
          rw [hnn]
          exact includeTarget_mem_all hp hinc
        · exact Or.inr hm
      · intro inc hinc d hlook
        obtain ⟨hd, hnn⟩ := lookupProxy_eq hlook
        rw [hnn]
        exact includeTarget_mem_all hp hinc
    rw [computeRoutesF] at h
    split at h
    · cases h
      exact (stInvalid_stchange st swOwner _).mono
        (fun m hm => by cases hm; exact Or.inl rfl) (fun n hn => hn.elim)
    · split at h
      · cases h
        exact (stInvalid_stchange st swOwner _).mono
          (fun m hm => by cases hm; exact Or.inl rfl) (fun n hn => hn.elim)
      · split at h
        · cases h
        · rename_i s1 hgieq
          cases h
          exact hginc s1 none hgieq
        · rename_i s1 rs hgieq
          split at h
          · rename_i st2 heqr
            cases h
            exact (hginc s1 (some rs) hgieq).trans
              ((goRoutes_stchange src cfg swOwner proxy conditions enforceTLS _ _ _ _ heqr).mono
                (fun m hm => Or.inl hm) (fun n hn => hn.elim))
          · rename_i st2 rs2 heqr
            split at h
            · cases h
            · rename_i ex hex
              cases h
              refine ((hginc s1 (some rs) hgieq).trans
                ((goRoutes_stchange src cfg swOwner proxy conditions enforceTLS _ _ _ _ heqr).mono
                  (fun m hm => Or.inl hm) (fun n hn => hn.elim))).trans ?_
              exact (commitStatus_stchange st2 swOwner .valid (fun _ hv => by cases hv)).mono
                (fun m hm => Or.inl hm) (fun n hn => hn.elim)

/-- The TCP walk commits statuses only for its owner and for include
targets, and deletes only include targets from the orphan set. -/
theorem processHTTPProxyTCPProxy_stchange (src : Source) :
    ∀ (fuel : Nat) (swOwner : NamespacedName) (httpproxy : HTTPProxy)
      (visited : List HTTPProxy) (host : String) (st : RunState) (out : RunState × Bool),
    httpproxy ∈ src.httpproxies →
    processHTTPProxyTCPProxy src fuel swOwner httpproxy visited host st = some out →
    StChange (fun m => m = swOwner ∨ m ∈ allIncludeTargets src)
      (fun n => n ∈ allIncludeTargets src) st out.fst := by
  intro fuel
  induction fuel with
  | zero => intro _ _ _ _ _ _ _ h; cases h
  | succ fuel ih =>
    intro swOwner httpproxy visited host st out hp h
    rw [processHTTPProxyTCPProxy] at h
    simp only [] at h
    split at h
    · cases h; exact StChange.same
    · rename_i tp htp
      split at h
      · -- services and include both specified
        cases h
        exact (stInvalid_stchange st swOwner _).mono
          (fun m hm => by cases hm; exact Or.inl rfl) (fun n hn => hn.elim)
      · split at h
        · -- leaf services case
          split at h
          · rename_i st1 heq
            cases h
            exact (goTCPServices_stchange src swOwner httpproxy tp _ _ _ _ heq).mono
              (fun m hm => Or.inl hm) (fun n hn => hn.elim)
          · rename_i st1 clusters heq
            cases h
            exact ((goTCPServices_stchange src swOwner httpproxy tp _ _ _ _ heq).mono
              (fun m hm => Or.inl hm) (fun n hn => hn.elim)).trans
              (vhostOnly_stchange st1 _ _)
        · -- delegation case
          split at h
          · cases h
            exact (stInvalid_stchange st swOwner _).mono
              (fun m hm => by cases hm; exact Or.inl rfl) (fun n hn => hn.elim)
          · rename_i inc hinc
            split at h
            · cases h
              exact (stInvalid_stchange st swOwner _).mono
                (fun m hm => by cases hm; exact Or.inl rfl) (fun n hn => hn.elim)
            · rename_i dest hlook
              split at h
              · cases h
                exact (stInvalid_stchange st swOwner _).mono
                  (fun m hm => by cases hm; exact Or.inl rfl) (fun n hn => hn.elim)
              · have hlook' : lookupProxy src (tcpTargetNN httpproxy inc) = some dest := hlook
                obtain ⟨hd, hnn⟩ := lookupProxy_eq hlook'
                have htgt : nnOf dest ∈ allIncludeTargets src := by
                  rw [hnn]
                  exact tcpTarget_mem_all hp htp hinc
                have hdel : StChange (fun m => m = swOwner ∨ m ∈ allIncludeTargets src)
                    (fun n => n ∈ allIncludeTargets src) st
                    { st with orphaned := deleteOrphaned st.orphaned (nnOf dest) } :=
                  (delete_stchange st (nnOf dest)).mono (fun m hm => hm.elim)
                    (fun n hn => by cases hn; exact htgt)
                split at h
                · cases h
                  exact hdel.trans ((stInvalid_stchange _ swOwner _).mono
                    (fun m hm => by cases hm; exact Or.inl rfl) (fun n hn => hn.elim))
                · split at h
                  · cases h
                  · rename_i st2 ok hrec
                    have hkid := ih (nnOf dest) dest (visited ++ [httpproxy]) host _ _ hd hrec
                    have hkid' : StChange (fun m => m = swOwner ∨ m ∈ allIncludeTargets src)
                        (fun n => n ∈ allIncludeTargets src)
                        { st with orphaned := deleteOrphaned st.orphaned (nnOf dest) }
                        (st2, ok).fst :=
                      hkid.mono
                        (fun m (hm : m = nnOf dest ∨ m ∈ allIncludeTargets src) =>
                          Or.inr (hm.elim (fun he => by rw [he]; exact htgt) (fun hin => hin)))
                        (fun n hn => hn)
                    split at h
                    · cases h
                      refine (hdel.trans hkid').trans ?_
                      exact (commitStatus_stchange st2 (nnOf dest) .valid
                        (fun _ hv => by cases hv)).mono
                        (fun m hm => by cases hm; exact Or.inr htgt) (fun n hn => hn.elim)
                    · cases h
                      exact hdel.trans hkid'

/-- The fallback-certificate block only commits statuses for the document. -/
theorem computeFallback_stchange (src : Source) (cfg : Config) (proxy : HTTPProxy)
    (tls : TLSSpec) (host : String) (st : RunState) :
    ∀ out, computeFallbackCertificate src cfg proxy tls host st = out →
    StChange (· = nnOf proxy) (fun _ => False) st
      (match out with | .error s => s | .ok s => s) := by
  intro out hout
  unfold computeFallbackCertificate at hout
  repeat' split at hout
  all_goals subst hout
  all_goals first
    | exact stInvalid_stchange st (nnOf proxy) _
    | exact vhostOnly_stchange st _ _

/-- The client-validation block only commits statuses for the document. -/
theorem computeClientValidation_stchange (src : Source) (proxy : HTTPProxy)
    (tls : TLSSpec) (host : String) (st : RunState) :
    ∀ out, computeClientValidation src proxy tls host st = out →
    StChange (· = nnOf proxy) (fun _ => False) st
      (match out with | .error s => s | .ok s => s) := by
  intro out hout
  unfold computeClientValidation at hout
  repeat' split at hout
  all_goals subst hout
  all_goals first
    | exact stInvalid_stchange st (nnOf proxy) _
    | exact vhostOnly_stchange st _ _

/-- The TLS stanza handling only commits statuses for the document. -/
theorem computeVirtualHostTLS_stchange (src : Source) (cfg : Config) (proxy : HTTPProxy)
    (host : String) (tls : Option TLSSpec) (st : RunState) :
    ∀ out, computeVirtualHostTLS src cfg proxy host tls st = out →
    StChange (· = nnOf proxy) (fun _ => False) st
      (match out with | .error s => s | .ok p => p.fst) := by
  intro out hout
  unfold computeVirtualHostTLS at hout
  simp only [] at hout
  split at hout
  · subst hout; exact StChange.same
  · rename_i tls
    split at hout
    · subst hout; exact stInvalid_stchange st (nnOf proxy) _
    · split at hout
      · subst hout; exact stInvalid_stchange st (nnOf proxy) _
      · split at hout
        · -- terminating TLS
          split at hout
          · subst hout; exact stInvalid_stchange st (nnOf proxy) _
          · split at hout
            · subst hout; exact stInvalid_stchange st (nnOf proxy) _
            · -- secret attached to the secure vhost
              have hsv : StChange (· = nnOf proxy) (fun _ => False) st
                  { st with svhosts := updateSVHost st.svhosts host (fun sv =>
                    { sv with secret := some (namespacedNameFrom tls.secretName proxy.ns),
                              minTLSVersion := minTLSVer tls.minimumProtocolVersion }) } :=
                vhostOnly_stchange st _ _
              split at hout
              · subst hout
                exact hsv.trans (stInvalid_stchange _ (nnOf proxy) _)
              · split at hout
                · rename_i st2 hfb
                  subst hout
                  exact hsv.trans (computeFallback_stchange src cfg proxy tls host _ _ hfb)
                · rename_i st2 hfb
                  split at hout
                  · rename_i st3 hcv
                    subst hout
                    exact (hsv.trans (computeFallback_stchange src cfg proxy tls host _ _ hfb)).trans
                      (computeClientValidation_stchange src proxy tls host _ _ hcv)
                  · rename_i st3 hcv
                    subst hout
                    exact (hsv.trans (computeFallback_stchange src cfg proxy tls host _ _ hfb)).trans
                      (computeClientValidation_stchange src proxy tls host _ _ hcv)
        · -- passthrough
          split at hout
          · subst hout; exact stInvalid_stchange st (nnOf proxy) _
          · subst hout; exact StChange.same

/-- The route-computation tail only writes for the document and its include
targets. -/
theorem computeHTTPProxyRoutes_stchange (src : Source) (cfg : Config) (fuel : Nat)
    (st : RunState) (proxy : HTTPProxy) (host : String) (tlsEnabled : Bool) (st' : RunState)
    (hp : proxy ∈ src.httpproxies)
    (h : computeHTTPProxyRoutes src cfg fuel st proxy host tlsEnabled = some st') :
    StChange (fun m => m = nnOf proxy ∨ m ∈ allIncludeTargets src)
      (fun n => n ∈ allIncludeTargets src) st st' := by
  unfold computeHTTPProxyRoutes at h
  split at h
  · cases h
  · rename_i st1 routes hcr
    have h1 := computeRoutesF_stchange src cfg fuel (nnOf proxy) proxy [] [] tlsEnabled st _ hp hcr
    simp only [] at h
    split at h
    · cases h
      exact h1.trans (vhostOnly_stchange st1 _ _)
    · cases h
      exact h1.trans (vhostOnly_stchange st1 _ _)

/-- Processing a root document never adds to the orphan set, deletes only
include targets, and writes statuses only for itself and include targets. -/
theorem computeHTTPProxy_root_stchange (src : Source) (cfg : Config) (fuel : Nat)
    (st : RunState) (proxy : HTTPProxy) (st' : RunState) (vh : VirtualHostSpec)
    (hp : proxy ∈ src.httpproxies) (hv : proxy.virtualHost = some vh)
    (h : computeHTTPProxy src cfg fuel st proxy = some st') :
    StChange (fun m => m = nnOf proxy ∨ m ∈ allIncludeTargets src)
      (fun n => n ∈ allIncludeTargets src) st st' := by
  have closer : ∀ msg, StChange (fun m => m = nnOf proxy ∨ m ∈ allIncludeTargets src)
      (fun n => n ∈ allIncludeTargets src) st (stInvalid st (nnOf proxy) msg) :=
    fun msg => (stInvalid_stchange st (nnOf proxy) msg).mono
      (fun m hm => by cases hm; exact Or.inl rfl) (fun n hn => hn.elim)
  unfold computeHTTPProxy at h
  split at h
  · rename_i hnone
    rw [hv] at hnone
    cases hnone
  · rename_i vh' hv'
    have hTLS : ∀ (st1 : RunState) (b : Bool),
        computeVirtualHostTLS src cfg proxy vh'.fqdn vh'.tls st = .ok (st1, b) →
        StChange (fun m => m = nnOf proxy ∨ m ∈ allIncludeTargets src)
          (fun n => n ∈ allIncludeTargets src) st st1 :=
      fun st1 b htls =>
        (computeVirtualHostTLS_stchange src cfg proxy vh'.fqdn vh'.tls st _ htls).mono
          (fun m hm => Or.inl hm) (fun n hn => hn.elim)
    have hTLSe : ∀ (st1 : RunState),
        computeVirtualHostTLS src cfg proxy vh'.fqdn vh'.tls st = .error st1 →
        StChange (fun m => m = nnOf proxy ∨ m ∈ allIncludeTargets src)
          (fun n => n ∈ allIncludeTargets src) st st1 :=
      fun st1 htls =>
        (computeVirtualHostTLS_stchange src cfg proxy vh'.fqdn vh'.tls st _ htls).mono
          (fun m hm => Or.inl hm) (fun n hn => hn.elim)
    repeat' split at h
    · cases h
      exact closer _
    · simp only [] at h
      split at h
      · cases h; exact closer _
      · split at h
        · cases h; exact closer _
        · cases h; exact closer _
    · simp only [] at h
      split at h
      · cases h; exact closer _
      · split at h
        · cases h; exact closer _
        · split at h
          · rename_i st1 htls
            cases h
            exact hTLSe _ htls
          · rename_i st1 tlsEnabled htls
            split at h
            · cases h
              exact (hTLS st1 tlsEnabled htls).trans
                ((stInvalid_stchange st1 (nnOf proxy) _).mono
                  (fun m hm => by cases hm; exact Or.inl rfl) (fun n hn => hn.elim))
            · split at h
              · exact Option.noConfusion h
              · rename_i st2 htcp
                cases h
                exact (hTLS st1 tlsEnabled htls).trans
                  (processHTTPProxyTCPProxy_stchange src fuel (nnOf proxy) proxy []
                    vh'.fqdn st1 _ hp htcp)
              · rename_i st2 htcp
                exact ((hTLS st1 tlsEnabled htls).trans
                  (processHTTPProxyTCPProxy_stchange src fuel (nnOf proxy) proxy []
                    vh'.fqdn st1 _ hp htcp)).trans
                  (computeHTTPProxyRoutes_stchange src cfg fuel st2 proxy vh'.fqdn
                    tlsEnabled st' hp h)
    · simp only [] at h
      split at h
      · cases h; exact closer _
      · split at h
        · cases h; exact closer _
        · split at h
          · rename_i st1 htls
            cases h
            exact hTLSe _ htls
          · rename_i st1 tlsEnabled htls
            exact (hTLS st1 tlsEnabled htls).trans
              (computeHTTPProxyRoutes_stchange src cfg fuel st1 proxy vh'.fqdn
                tlsEnabled st' hp h)

/-- Processing a leaf document only records it in the orphan set. -/
theorem computeHTTPProxy_leaf (src : Source) (cfg : Config) (fuel : Nat)
    (st : RunState) (proxy : HTTPProxy) (hv : proxy.virtualHost = none) :
    computeHTTPProxy src cfg fuel st proxy
      = some { st with orphaned := setOrphaned st.orphaned (nnOf proxy) } := by
  unfold computeHTTPProxy
  rw [hv]

/-- A freshly recorded orphan is in the orphan set. -/
theorem mem_setOrphaned_self (l : List NamespacedName) (n : NamespacedName) :
    n ∈ setOrphaned l n := by
  unfold setOrphaned
  split
  · rename_i hcon
    exact List.mem_of_elem_eq_true hcon
  · exact List.mem_append_right _ (List.mem_singleton.mpr rfl)

/-- Recording an orphan preserves the existing entries. -/
theorem mem_setOrphaned_of_mem {l : List NamespacedName} {m : NamespacedName}
    (n : NamespacedName) (h : m ∈ l) : m ∈ setOrphaned l n := by
  unfold setOrphaned
  split
  · exact h
  · exact List.mem_append_left _ h

/-! ## C10: leaves precede roots, so orphan adds precede root deletions -/

/-- C10: `validHTTPProxies` lists every document without a VirtualHost
before every document with one; processing a leaf only records it in the
orphan set, and processing a root never adds to the orphan set — so a
leaf's orphan entry exists before any root's include walk could delete it,
for every snapshot order. -/
theorem c10_valid_order_orphan_discipline (src : Source) (cfg : Config) (fuel : Nat)
    (st st' : RunState) (p : HTTPProxy) :
    ((validHTTPProxies src).fst =
        src.httpproxies.filter (fun q => q.virtualHost.isNone)
          ++ (fqdnPass src.httpproxies (rootFqdns src.httpproxies)).fst ∧
      (∀ q ∈ src.httpproxies.filter (fun q => q.virtualHost.isNone), q.virtualHost = none) ∧
      (∀ q ∈ (fqdnPass src.httpproxies (rootFqdns src.httpproxies)).fst,
        q.virtualHost ≠ none)) ∧
    (p.virtualHost = none →
      computeHTTPProxy src cfg fuel st p
          = some { st with orphaned := setOrphaned st.orphaned (nnOf p) } ∧
      nnOf p ∈ setOrphaned st.orphaned (nnOf p)) ∧
    (∀ vh, p.virtualHost = some vh → p ∈ src.httpproxies →
      computeHTTPProxy src cfg fuel st p = some st' →
      ∀ n, n ∈ st'.orphaned → n ∈ st.orphaned) := by
  refine ⟨⟨rfl, ?_, ?_⟩, ?_, ?_⟩
  · intro q hq
    exact Option.isNone_iff_eq_none.mp (List.mem_filter.mp hq).2
  · intro q hq
    obtain ⟨f, _, heq⟩ := fqdnPass_valid_mem hq
    have hm : q ∈ rootsWithFqdn src.httpproxies f := by
      rw [heq]
      exact List.mem_singleton.mpr rfl
    obtain ⟨_, v, hv, _⟩ := mem_rootsWithFqdn.mp hm
    rw [hv]
    exact fun hc => Option.noConfusion hc
  · intro hleaf
    exact ⟨computeHTTPProxy_leaf src cfg fuel st p hleaf, mem_setOrphaned_self _ _⟩
  · intro vh hv hp hrun n hn
    exact (computeHTTPProxy_root_stchange src cfg fuel st p st' vh hp hv hrun).orphSub n hn

/-- Witness for C10: in the wildcard-root snapshot the leaf precedes the
root in the valid list, leaf processing records the leaf, and the root's
processing leaves the leaf's orphan entry in place. -/
theorem c10_witness :
    ((validHTTPProxies srcC3).fst =
        srcC3.httpproxies.filter (fun q => q.virtualHost.isNone)
          ++ (fqdnPass srcC3.httpproxies (rootFqdns srcC3.httpproxies)).fst) ∧
    (computeHTTPProxy srcC3 cfg0 3 st0 pxLeafC3
        = some { st0 with orphaned := setOrphaned st0.orphaned (nnOf pxLeafC3) }) ∧
    nnOf pxLeafC3 ∈ ({ st0 with orphaned := [nnOf pxLeafC3] } : RunState).orphaned := by
  have h := c10_valid_order_orphan_discipline srcC3 cfg0 3
    { st0 with orphaned := [nnOf pxLeafC3] }
    (stInvalid { st0 with orphaned := [nnOf pxLeafC3] } (nnOf pxBadRootC3)
      "Spec.VirtualHost.Fqdn \"*bad*\" cannot use wildcards")
    pxLeafC3
  have hroot := c10_valid_order_orphan_discipline srcC3 cfg0 3
    { st0 with orphaned := [nnOf pxLeafC3] }
    (stInvalid { st0 with orphaned := [nnOf pxLeafC3] } (nnOf pxBadRootC3)
      "Spec.VirtualHost.Fqdn \"*bad*\" cannot use wildcards")
    pxBadRootC3
  refine ⟨h.1.1, ?_, ?_⟩
  · have h2 := c10_valid_order_orphan_discipline srcC3 cfg0 3 st0 st0 pxLeafC3
    exact (h2.2.1 rfl).1
  · exact hroot.2.2 ⟨"*bad*", none⟩ rfl (by decide) rfl (nnOf pxLeafC3) (by decide)

/-! ## C3: the orphan set after a run -/

/-- A recorded orphan entry is an old entry or the recorded coordinate. -/
theorem mem_setOrphaned_elim {l : List NamespacedName} {m n : NamespacedName}
    (h : m ∈ setOrphaned l n) : m ∈ l ∨ m = n := by
  unfold setOrphaned at h
  split at h
  · exact Or.inl h
  · rcases List.mem_append.mp h with h | h
    · exact Or.inl h
    · exact Or.inr (List.mem_singleton.mp h)

/-- `find?` hits in the left part of an append first. -/
theorem find?_append_left {α : Type} {p : α → Bool} {l1 : List α} (l2 : List α) {x : α}
    (h : l1.find? p = some x) : (l1 ++ l2).find? p = some x := by
  induction l1 with
  | nil => cases h
  | cons a l1 ih =>
    by_cases hpa : p a = true
    · rw [List.find?_cons_of_pos _ hpa] at h
      rw [List.cons_append, List.find?_cons_of_pos _ hpa]
      exact h
    · rw [List.find?_cons_of_neg _ hpa] at h
      rw [List.cons_append, List.find?_cons_of_neg _ hpa]
      exact ih h

/-- `find?` falls through to the right part when the left part misses. -/
theorem find?_append_right {α : Type} {p : α → Bool} {l1 : List α} (l2 : List α)
    (h : l1.find? p = none) : (l1 ++ l2).find? p = l2.find? p := by
  induction l1 with
  | nil => rfl
  | cons a l1 ih =>
    by_cases hpa : p a = true
    · rw [List.find?_cons_of_pos _ hpa] at h
      cases h
    · rw [List.find?_cons_of_neg _ hpa] at h
      rw [List.cons_append, List.find?_cons_of_neg _ hpa]
      exact ih h

/-- The status table holds a key exactly when `statusOf` finds it. -/
theorem anyKey_eq_true_iff {sts : List (NamespacedName × Status)} {n : NamespacedName} :
    sts.any (fun e => decide (e.fst = n)) = true ↔ (statusOf sts n).isSome = true := by
  unfold statusOf
  rw [List.any_eq_true]
  cases hf : sts.find? (fun e => decide (e.fst = n)) with
  | none =>
    rw [List.find?_eq_none] at hf
    simp only [Option.map_none', Option.isSome_none]
    constructor
    · rintro ⟨x, hx, hpx⟩
      exact absurd hpx (hf x hx)
    · intro h
      cases h
  | some e =>
    simp only [Option.map_some', Option.isSome_some]
    constructor
    · intro _
      trivial
    · intro _
      have h2 := List.find?_some hf
      exact ⟨e, List.mem_of_find?_eq_some hf, h2⟩

/-- Absent keys read back as `none`. -/
theorem statusOf_eq_none_of_anyKey {sts : List (NamespacedName × Status)} {n : NamespacedName}
    (h : sts.any (fun e => decide (e.fst = n)) = false) : statusOf sts n = none := by
  cases hs : statusOf sts n with
  | none => rfl
  | some s =>
    have ht : sts.any (fun e => decide (e.fst = n)) = true :=
      anyKey_eq_true_iff.mpr (by rw [hs]; rfl)
    rw [h] at ht
    cases ht

/-- Committing to an empty slot writes the status. -/
theorem statusOf_commit_self {sts : List (NamespacedName × Status)} {n : NamespacedName}
    (s : Status) (h : statusOf sts n = none) :
    statusOf (commitStatus sts n s) n = some s := by
  have hany : sts.any (fun e => decide (e.fst = n)) = false := by
    cases hany : sts.any (fun e => decide (e.fst = n)) with
    | false => rfl
    | true =>
      have ht := anyKey_eq_true_iff.mp hany
      rw [h] at ht
      cases ht
  have hfind : sts.find? (fun e => decide (e.fst = n)) = none := by
    unfold statusOf at h
    exact Option.map_eq_none'.mp h
  unfold commitStatus
  rw [if_neg (by rw [hany]; exact Bool.false_ne_true)]
  unfold statusOf
  rw [find?_append_right _ hfind, List.find?_cons_of_pos _ (by exact decide_eq_true rfl)]
  rfl

/-- Committing under a different key leaves a slot unchanged. -/
theorem statusOf_commit_other {sts : List (NamespacedName × Status)} {m n : NamespacedName}
    (hne : m ≠ n) (s : Status) :
    statusOf (commitStatus sts m s) n = statusOf sts n := by
  unfold commitStatus
  split
  · rfl
  · unfold statusOf
    cases hf : sts.find? (fun e => decide (e.fst = n)) with
    | some e => rw [find?_append_left _ hf]
    | none =>
      rw [find?_append_right _ hf,
        List.find?_cons_of_neg _ (by simpa using hne)]
      rfl

/-- The orphan loop preserves statuses that are already committed. -/
theorem markOrphans_keeps (src : Source) (ol : List NamespacedName)
    {sts : List (NamespacedName × Status)} {n : NamespacedName} {s : Status}
    (h : statusOf sts n = some s) :
    statusOf (markOrphans src ol sts) n = some s := by
  induction ol generalizing sts with
  | nil => exact h
  | cons m rest ih =>
    unfold markOrphans
    cases hl : lookupProxy src m with
    | none => exact ih h
    | some d =>
      apply ih
      by_cases hmn : m = n
      · subst hmn
        unfold commitStatus
        rw [if_pos (anyKey_eq_true_iff.mpr (by rw [h]; rfl))]
        exact h
      · rw [statusOf_commit_other hmn]
        exact h

/-- The orphan loop commits the orphaned status for every surviving,
still-resolving orphan whose status slot is empty. -/
theorem markOrphans_commits (src : Source) (ol : List NamespacedName)
    {sts : List (NamespacedName × Status)} {n : NamespacedName}
    (hn : n ∈ ol) (hl : (lookupProxy src n).isSome = true)
    (h : statusOf sts n = none) :
    statusOf (markOrphans src ol sts) n = some (Status.orphaned orphanDescription) := by
  induction ol generalizing sts with
  | nil => cases hn
  | cons m rest ih =>
    unfold markOrphans
    by_cases hmn : m = n
    · subst hmn
      cases hlk : lookupProxy src m with
      | none => rw [hlk] at hl; cases hl
      | some d =>
        exact markOrphans_keeps src rest (statusOf_commit_self _ h)
    · have hn' : n ∈ rest :=
        (List.mem_cons.mp hn).resolve_left (fun he => hmn he.symm)
      cases hlk : lookupProxy src m with
      | none => exact ih hn' h
      | some d =>
        apply ih hn'
        rw [statusOf_commit_other hmn]
        exact h

/-- A snapshot member always resolves by coordinate. -/
theorem lookupProxy_isSome_of_mem {src : Source} {p : HTTPProxy}
    (h : p ∈ src.httpproxies) : (lookupProxy src (nnOf p)).isSome = true := by
  unfold lookupProxy
  cases hf : src.httpproxies.find? (fun q => decide (nnOf q = nnOf p)) with
  | some d => rfl
  | none =>
    rw [List.find?_eq_none] at hf
    exact absurd (decide_eq_true rfl) (hf p h)

/-- Every FQDN-conflict status is keyed by a snapshot root. -/
theorem fqdnPass_snd_key {l : List HTTPProxy} {fs : List String}
    {e : NamespacedName × Status} (he : e ∈ (fqdnPass l fs).snd) :
    ∃ q, q ∈ l ∧ nnOf q = e.fst ∧ q.virtualHost ≠ none := by
  induction fs with
  | nil => simp only [fqdnPass] at he; cases he
  | cons f fs ih =>
    cases hg : rootsWithFqdn l f with
    | nil =>
      simp only [fqdnPass, hg, List.map_nil, List.nil_append] at he
      exact ih he
    | cons x xs =>
      cases xs with
      | nil =>
        simp only [fqdnPass, hg] at he
        exact ih he
      | cons y ys =>
        simp only [fqdnPass, hg] at he
        rcases List.mem_append.mp he with he | he
        · obtain ⟨q, hq, heq⟩ := List.mem_map.mp he
          have hm := mem_rootsWithFqdn.mp (show q ∈ rootsWithFqdn l f by rw [hg]; exact hq)
          obtain ⟨v, hv, _⟩ := hm.2
          refine ⟨q, hm.1, ?_, ?_⟩
          · rw [← heq]
          · rw [hv]
            exact fun hc => Option.noConfusion hc
        · exact ih he

/-- Every member of the valid list comes from the snapshot. -/
theorem validHTTPProxies_mem {src : Source} {q : HTTPProxy}
    (h : q ∈ (validHTTPProxies src).fst) : q ∈ src.httpproxies := by
  simp only [validHTTPProxies] at h
  rcases List.mem_append.mp h with h | h
  · exact List.mem_of_mem_filter h
  · obtain ⟨f, _, he⟩ := fqdnPass_valid_mem h
    have hm : q ∈ rootsWithFqdn src.httpproxies f := by
      rw [he]
      exact List.mem_singleton.mpr rfl
    exact (mem_rootsWithFqdn.mp hm).1

/-- The processing fold splits along list concatenation. -/
theorem fold_split (src : Source) (cfg : Config) (fuel : Nat) (l1 l2 : List HTTPProxy)
    (stA stB : RunState)
    (h : computeHTTPProxiesFold src cfg fuel (l1 ++ l2) stA = some stB) :
    ∃ stm, computeHTTPProxiesFold src cfg fuel l1 stA = some stm ∧
      computeHTTPProxiesFold src cfg fuel l2 stm = some stB := by
  induction l1 generalizing stA with
  | nil => exact ⟨stA, rfl, h⟩
  | cons q l1 ih =>
    rw [List.cons_append] at h
    unfold computeHTTPProxiesFold at h
    cases hq : computeHTTPProxy src cfg fuel stA q with
    | none => rw [hq] at h; cases h
    | some st1 =>
      rw [hq] at h
      obtain ⟨stm, h1, h2⟩ := ih st1 h
      refine ⟨stm, ?_, h2⟩
      unfold computeHTTPProxiesFold
      rw [hq]
      exact h1

/-- Distinct snapshot coordinates make `nnOf` injective on the snapshot. -/
theorem nnOf_inj {src : Source} (hnd : (src.httpproxies.map nnOf).Nodup)
    {p q : HTTPProxy} (hp : p ∈ src.httpproxies) (hq : q ∈ src.httpproxies)
    (h : nnOf p = nnOf q) : p = q :=
  List.inj_on_of_nodup_map hnd hp hq h

/-- Invariants of the processing fold: the orphan set only ever holds
snapshot leaves, an orphan entry no snapshot include targets survives, and
a leaf coordinate no snapshot include targets never acquires a status. -/
theorem fold_walk_inv (src : Source) (cfg : Config) (fuel : Nat)
    (hnd : (src.httpproxies.map nnOf).Nodup) :
    ∀ (l : List HTTPProxy) (stA stB : RunState),
    (∀ q, q ∈ l → q ∈ src.httpproxies) →
    computeHTTPProxiesFold src cfg fuel l stA = some stB →
    (∀ n, n ∈ stB.orphaned → n ∈ stA.orphaned ∨
        ∃ p, p ∈ src.httpproxies ∧ nnOf p = n ∧ p.virtualHost = none) ∧
    (∀ n, n ∈ stA.orphaned → n ∉ allIncludeTargets src → n ∈ stB.orphaned) ∧
    (∀ m, (∃ p, p ∈ src.httpproxies ∧ nnOf p = m ∧ p.virtualHost = none) →
        m ∉ allIncludeTargets src →
        stA.statuses.any (fun e => decide (e.fst = m)) = false →
        stB.statuses.any (fun e => decide (e.fst = m)) = false) := by
  intro l
  induction l with
  | nil =>
    intro stA stB _ h
    unfold computeHTTPProxiesFold at h
    cases h
    exact ⟨fun n hn => Or.inl hn, fun n hn _ => hn, fun m _ _ h => h⟩
  | cons q rest ih =>
    intro stA stB hl h
    unfold computeHTTPProxiesFold at h
    cases hq : computeHTTPProxy src cfg fuel stA q with
    | none => rw [hq] at h; cases h
    | some st1 =>
      rw [hq] at h
      have hql : q ∈ src.httpproxies := hl q (List.mem_cons_self q rest)
      have hrl : ∀ p, p ∈ rest → p ∈ src.httpproxies :=
        fun p hp => hl p (List.mem_cons_of_mem q hp)
      have IH := ih st1 stB hrl h
      cases hv : q.virtualHost with
      | none =>
        have hleaf := computeHTTPProxy_leaf src cfg fuel stA q hv
        rw [hq] at hleaf
        have hst1 := Option.some.inj hleaf
        subst hst1
        refine ⟨?_, ?_, ?_⟩
        · intro n hn
          rcases IH.1 n hn with hn1 | hex
          · rcases mem_setOrphaned_elim hn1 with h' | h'
            · exact Or.inl h'
            · exact Or.inr ⟨q, hql, h'.symm, hv⟩
          · exact Or.inr hex
        · intro n hn hni
          exact IH.2.1 n (mem_setOrphaned_of_mem _ hn) hni
        · intro m hex hni hany
          exact IH.2.2 m hex hni hany
      | some vh =>
        have SC := computeHTTPProxy_root_stchange src cfg fuel stA q st1 vh hql hv hq
        refine ⟨?_, ?_, ?_⟩
        · intro n hn
          rcases IH.1 n hn with hn1 | hex
          · exact Or.inl (SC.orphSub n hn1)
          · exact Or.inr hex
        · intro n hn hni
          exact IH.2.1 n (SC.orphKeep n hn hni) hni
        · intro m hex hni hany
          apply IH.2.2 m hex hni
          apply SC.stKeys m ?_ hany
          rintro (hm | hm)
          · obtain ⟨p, hpmem, hpn, hpv⟩ := hex
            have hpq : p = q := nnOf_inj hnd hpmem hql (by rw [hpn, hm])
            rw [hpq, hv] at hpv
            cases hpv
          · exact hni hm

/-- C3 is refuted on `srcC3`: the leaf is transitively referenced (it is
the direct include target) of a root admitted to the valid set, yet the
finished run reports it with the orphaned status, because the root is
rejected for its wildcard FQDN before its include walk ever runs. -/
theorem c3_counterexample :
    pxBadRootC3 ∈ (validHTTPProxies srcC3).fst ∧
    pxLeafC3.virtualHost = none ∧
    nnOf pxLeafC3 ∈ reachableFrom srcC3 pxBadRootC3 ∧
    (runModel srcC3 cfg0).map (fun st => statusOf st.statuses (nnOf pxLeafC3))
      = some (some (Status.orphaned orphanDescription)) := by
  refine ⟨by decide, rfl, by decide, by decide⟩

/-- C3 (amended): on any snapshot with distinct coordinates, a finished
run's orphan set holds only snapshot leaves, and every leaf that no
include of any snapshot document targets stays in the orphan set and is
reported with the orphaned status. -/
theorem c3_orphan_characterization (src : Source) (cfg : Config) (st : RunState)
    (hnd : (src.httpproxies.map nnOf).Nodup)
    (hrun : runModel src cfg = some st) :
    (∀ n, n ∈ st.orphaned →
      ∃ p, p ∈ src.httpproxies ∧ nnOf p = n ∧ p.virtualHost = none) ∧
    (∀ p, p ∈ src.httpproxies → p.virtualHost = none →
      nnOf p ∉ allIncludeTargets src →
      nnOf p ∈ st.orphaned ∧
      statusOf st.statuses (nnOf p) = some (Status.orphaned orphanDescription)) := by
  simp only [runModel] at hrun
  cases hf : computeHTTPProxiesFold src cfg (src.httpproxies.length + 1)
      (validHTTPProxies src).fst
      { orphaned := [], statuses := (validHTTPProxies src).snd,
        vhosts := [], svhosts := [] } with
  | none => rw [hf] at hrun; cases hrun
  | some st1 =>
    rw [hf] at hrun
    have hst := Option.some.inj hrun
    subst hst
    have INV := fold_walk_inv src cfg (src.httpproxies.length + 1) hnd
      (validHTTPProxies src).fst
      { orphaned := [], statuses := (validHTTPProxies src).snd,
        vhosts := [], svhosts := [] }
      st1 (fun q hq => validHTTPProxies_mem hq) hf
    constructor
    · intro n hn
      rcases INV.1 n hn with h0 | hex
      · cases h0
      · exact hex
    · intro p hp hpv hpni
      have hpvalid : p ∈ (validHTTPProxies src).fst := by
        simp only [validHTTPProxies]
        exact List.mem_append_left _ (List.mem_filter.mpr ⟨hp, by rw [hpv]; rfl⟩)
      obtain ⟨l1, l2, hsplit⟩ := List.append_of_mem hpvalid
      rw [hsplit] at hf
      obtain ⟨stm, hf1, hf2⟩ := fold_split src cfg _ l1 (p :: l2) _ _ hf
      have hleaf := computeHTTPProxy_leaf src cfg (src.httpproxies.length + 1) stm p hpv
      unfold computeHTTPProxiesFold at hf2
      rw [hleaf] at hf2
      have hl2 : ∀ q, q ∈ l2 → q ∈ src.httpproxies := by
        intro q hq
        apply validHTTPProxies_mem
        rw [hsplit]
        exact List.mem_append_right _ (List.mem_cons_of_mem _ hq)
      have INV2 := fold_walk_inv src cfg (src.httpproxies.length + 1) hnd l2
        { stm with orphaned := setOrphaned stm.orphaned (nnOf p) } st1 hl2 hf2
      have horph : nnOf p ∈ st1.orphaned :=
        INV2.2.1 (nnOf p) (mem_setOrphaned_self _ _) hpni
      refine ⟨horph, ?_⟩
      have hinit : ((validHTTPProxies src).snd).any
          (fun e => decide (e.fst = nnOf p)) = false := by
        cases hany : ((validHTTPProxies src).snd).any
            (fun e => decide (e.fst = nnOf p)) with
        | false => rfl
        | true =>
          obtain ⟨e, he, hpe⟩ := List.any_eq_true.mp hany
          have he' : e ∈ (fqdnPass src.httpproxies (rootFqdns src.httpproxies)).snd := by
            simpa [validHTTPProxies] using he
          obtain ⟨qr, hqr, hqrn, hqrv⟩ := fqdnPass_snd_key he'
          rw [decide_eq_true_eq] at hpe
          have hqp : qr = p := nnOf_inj hnd hqr hp (by rw [hqrn, hpe])
          rw [hqp, hpv] at hqrv
          exact absurd rfl hqrv
      have hkey : st1.statuses.any (fun e => decide (e.fst = nnOf p)) = false := by
        apply INV.2.2 (nnOf p) ⟨p, hp, rfl, hpv⟩ hpni
        exact hinit
      have hst1 : statusOf st1.statuses (nnOf p) = none := statusOf_eq_none_of_anyKey hkey
      exact markOrphans_commits src st1.orphaned horph (lookupProxy_isSome_of_mem hp) hst1

/-- Witness for C3 (amended): in the one-leaf snapshot the run leaves the
leaf in the orphan set with the orphaned status. -/
theorem c3_amended_witness :
    nnOf pxLeafC3 ∈ stLoneResult.orphaned ∧
    statusOf stLoneResult.statuses (nnOf pxLeafC3)
      = some (Status.orphaned orphanDescription) := by
  have h := c3_orphan_characterization srcLoneLeaf cfg0 stLoneResult (by decide) rfl
  exact h.2 pxLeafC3 (by decide) rfl (by decide)

end Contour
